import Mathlib

/-!
Verification of `find_unresolved_tokens` (ICO token-resolution scripts).

This file shallowly embeds the two Python script variants
(`src/datasets/scripts/find.py` and
`src/datasets/checks/.ipynb_checkpoints/find_unresolved_tokens-checkpoint.py`)
in Lean 4 and proves/refutes the frozen specification claims about them.

Python strings are modelled as `List Char`; Python floats produced by
`difflib.SequenceMatcher.ratio` are modelled exactly as rationals (`ℚ`).
Network effects are modelled by explicit oracle arguments: an oracle value
describes, per request, whether the underlying `requests` call raised an
exception, and otherwise the HTTP status and the parsed JSON body (with
`none` standing for a body on which `.json()` raises).  A Python exception
that escapes a function is modelled as `Except.error ()`.
-/

/-! ## Python string primitives -/

/-- Python `str.strip()` whitespace test, for the ASCII whitespace characters
(space, tab, newline, carriage return, vertical tab, form feed). -/
def isPySpace (c : Char) : Bool :=
  decide (c.toNat = 32 ∨ c.toNat = 9 ∨ c.toNat = 10 ∨ c.toNat = 13 ∨
          c.toNat = 11 ∨ c.toNat = 12)

/-- Python `str.strip()`: drop whitespace from both ends. -/
def pyStrip (l : List Char) : List Char :=
  ((l.dropWhile isPySpace).reverse.dropWhile isPySpace).reverse

/-- Python `str.lower()` on one character (ASCII range, where it agrees with
Unicode lowercasing): `A`-`Z` (65-90) maps to `a`-`z` by adding 32. -/
def pyLowerChar (c : Char) : Char :=
  if 65 ≤ c.toNat ∧ c.toNat ≤ 90 then Char.ofNat (c.toNat + 32) else c

/-- Python `str.lower()`. -/
def pyLower (l : List Char) : List Char := l.map pyLowerChar

/-- Python `str.upper()` on one character (ASCII range). -/
def pyUpperChar (c : Char) : Char :=
  if 97 ≤ c.toNat ∧ c.toNat ≤ 122 then Char.ofNat (c.toNat - 32) else c

/-- Python `str.upper()`. -/
def pyUpper (l : List Char) : List Char := l.map pyUpperChar

/-- Membership in the character class `[a-z0-9]` used by
`re.sub(r"[^a-z0-9]", "", s)`: `a`-`z` is 97-122, `0`-`9` is 48-57. -/
def isLowerAlnum (c : Char) : Bool :=
  decide ((97 ≤ c.toNat ∧ c.toNat ≤ 122) ∨ (48 ≤ c.toNat ∧ c.toNat ≤ 57))

/-! ## `normalize_text` (find.py lines 57-62, checkpoint lines 85-90)

```python
def normalize_text(s: str) -> str:
    if s is None:
        return ""
    s = str(s).strip().lower()
    s = re.sub(r"[^a-z0-9]", "", s)
    return s
```
-/

/-- `normalize_text`: `None` becomes `""`; otherwise strip, lowercase, and
delete every character outside `[a-z0-9]`. -/
def normalize_text : Option (List Char) → List Char
  | none => []
  | some l => (pyLower (pyStrip l)).filter isLowerAlnum

/-- `normalize_text` applied to a present (non-`None`) string. -/
def normStr (l : List Char) : List Char := normalize_text (some l)

/-! Helper lemmas for idempotence of `normalize_text`. -/

theorem isLowerAlnum_not_space {c : Char} (h : isLowerAlnum c = true) :
    isPySpace c = false := by
  simp only [isLowerAlnum, decide_eq_true_eq] at h
  simp only [isPySpace, decide_eq_false_iff_not]
  omega

theorem pyLowerChar_fixed {c : Char} (h : isLowerAlnum c = true) :
    pyLowerChar c = c := by
  simp only [isLowerAlnum, decide_eq_true_eq] at h
  simp only [pyLowerChar, ite_eq_right_iff]
  omega

theorem dropWhile_eq_self_of_not {l : List Char} (p : Char → Bool)
    (h : ∀ c ∈ l, p c = false) : l.dropWhile p = l := by
  cases l with
  | nil => rfl
  | cons c t => simp [List.dropWhile, h c (List.mem_cons_self c t)]

theorem pyStrip_eq_self_of_no_space {l : List Char}
    (h : ∀ c ∈ l, isPySpace c = false) : pyStrip l = l := by
  unfold pyStrip
  rw [dropWhile_eq_self_of_not _ h]
  rw [dropWhile_eq_self_of_not _ (fun c hc => h c (List.mem_reverse.mp hc))]
  exact List.reverse_reverse l

theorem normStr_mem_alnum {l : List Char} {c : Char} (h : c ∈ normStr l) :
    isLowerAlnum c = true :=
  (List.mem_filter.mp h).2

theorem normStr_idem (s : List Char) : normStr (normStr s) = normStr s := by
  have halnum : ∀ c ∈ normStr s, isLowerAlnum c = true :=
    fun c hc => normStr_mem_alnum hc
  show (pyLower (pyStrip (normStr s))).filter isLowerAlnum = normStr s
  rw [pyStrip_eq_self_of_no_space
    (fun c hc => isLowerAlnum_not_space (halnum c hc))]
  have hmap : ∀ l : List Char, (∀ c ∈ l, isLowerAlnum c = true) →
      pyLower l = l := by
    intro l
    induction l with
    | nil => intro _; rfl
    | cons c t ih =>
      intro h
      show pyLowerChar c :: t.map pyLowerChar = c :: t
      rw [pyLowerChar_fixed (h c (List.mem_cons_self c t)),
        show List.map pyLowerChar t = pyLower t from rfl,
        ih (fun x hx => h x (List.mem_cons_of_mem c hx))]
  rw [hmap _ halnum]
  exact List.filter_eq_self.mpr halnum

/-- Claim C7: `normalize_text` is a pure idempotent function: applying it twice
equals applying it once; the absent (`None`) and empty inputs give the empty
string; otherwise it lowercases, trims and strips every character outside
`[a-z0-9]` — e.g. `normalize("BTC-2!") = "btc2"`. -/
theorem normalize_text_pure_idempotent :
    (∀ s : List Char, normStr (normStr s) = normStr s)
    ∧ normalize_text none = []
    ∧ normStr [] = []
    ∧ (∀ s : List Char,
        normStr s = (pyLower (pyStrip s)).filter isLowerAlnum)
    ∧ normStr "BTC-2!".toList = "btc2".toList := by
  refine ⟨normStr_idem, rfl, rfl, fun s => rfl, ?_⟩
  decide

/-! ## `similar` = `SequenceMatcher(None, a, b).ratio()`
(find.py lines 64-65, checkpoint lines 92-93)

```python
def similar(a: str, b: str) -> float:
    return SequenceMatcher(None, a, b).ratio()
```

We embed CPython's `difflib.SequenceMatcher` with `isjunk=None` and the
default `autojunk=True`.  `bjunk` is empty (no junk predicate), so the two
junk-extension loops of `find_longest_match` never fire and are omitted;
`bpopular` (autojunk: for `len(b) >= 200`, elements occurring more than
`len(b)//100 + 1` times) is removed from the `b2j` index but, not being in
`bjunk`, does not block the non-junk extension loops.  `ratio()` is
`2*M/T` where `M` sums the sizes of the matching blocks and
`T = len(a)+len(b)`, or `1.0` when `T = 0`; we compute it exactly in `ℚ`.
-/

/-- State of `find_longest_match`: the current best block `(besti, bestj,
bestsize)`. -/
structure FlmState where
  besti : Nat
  bestj : Nat
  bestsize : Nat
deriving DecidableEq, Repr

/-- Ascending list of positions of character `c` in `b` (the `b2j` entry
before autojunk filtering). -/
def bOccurrences (b : List Char) (c : Char) : List Nat :=
  (List.range b.length).filter (fun j => decide (b.getD j ' ' = c))

/-- Autojunk: with the default `autojunk=True`, an element of `b` is
"popular" when `len(b) >= 200` and it occurs more than `len(b)//100 + 1`
times; popular elements are deleted from `b2j`. -/
def isPopular (b : List Char) (c : Char) : Bool :=
  decide (200 ≤ b.length) && decide (b.length / 100 + 1 < (bOccurrences b c).length)

/-- The `b2j` index after autojunk filtering. -/
def b2j (b : List Char) (c : Char) : List Nat :=
  if isPopular b c then [] else bOccurrences b c

/-- Positions of `b2j[a[i]]` restricted to `[blo, bhi)` (the `continue` /
`break` filtering in the inner loop of `find_longest_match`; the list is
ascending, so `break` at `j >= bhi` is the same as filtering). -/
def jsFor (a b : List Char) (i blo bhi : Nat) : List Nat :=
  (b2j b (a.getD i ' ')).filter (fun j => decide (blo ≤ j) && decide (j < bhi))

/-- `k = j2len.get(j-1, 0) + 1`: the length of the common run ending at the
current row and column `j`, read from the previous row `prev`. -/
def rowK (prev : Nat → Nat) (j : Nat) : Nat :=
  (if j = 0 then 0 else prev (j - 1)) + 1

/-- One inner-loop step: update the best block when `k > bestsize`
(`besti, bestj, bestsize = i-k+1, j-k+1, k`). -/
def rowStepBest (i : Nat) (prev : Nat → Nat) (st : FlmState) (j : Nat) : FlmState :=
  if st.bestsize < rowK prev j then
    ⟨i + 1 - rowK prev j, j + 1 - rowK prev j, rowK prev j⟩
  else st

/-- Process one row `i` of `find_longest_match`'s main loop, updating the
best block over the ascending positions `js`. -/
def rowBest (i : Nat) (prev : Nat → Nat) (js : List Nat) (st : FlmState) : FlmState :=
  js.foldl (rowStepBest i prev) st

/-- The `newj2len` dictionary produced by row `i`, as a function: positions
in `js` get their run length, everything else defaults to `0`. -/
def rowNext (prev : Nat → Nat) (js : List Nat) : Nat → Nat :=
  fun j => if j ∈ js then rowK prev j else 0

/-- The main loop of `find_longest_match` over rows `i = alo .. ahi-1`
(`cnt` counts the remaining rows). -/
def flmLoop (a b : List Char) (blo bhi : Nat) :
    Nat → Nat → (Nat → Nat) → FlmState → FlmState
  | _, 0, _, st => st
  | i, cnt + 1, prev, st =>
    let js := jsFor a b i blo bhi
    flmLoop a b blo bhi (i + 1) cnt (rowNext prev js) (rowBest i prev js st)

/-- First extension loop of `find_longest_match` (`bjunk` is empty, so the
`not isbjunk(...)` guard is vacuous): extend the best block backwards while
the preceding characters match. -/
def extendBack (a b : List Char) (alo blo : Nat) : Nat → FlmState → FlmState
  | 0, st => st
  | fuel + 1, st =>
    if alo < st.besti ∧ blo < st.bestj ∧
        a.getD (st.besti - 1) ' ' = b.getD (st.bestj - 1) ' ' then
      extendBack a b alo blo fuel ⟨st.besti - 1, st.bestj - 1, st.bestsize + 1⟩
    else st

/-- Second extension loop of `find_longest_match`: extend forwards while the
following characters match. -/
def extendFwd (a b : List Char) (ahi bhi : Nat) : Nat → FlmState → FlmState
  | 0, st => st
  | fuel + 1, st =>
    if st.besti + st.bestsize < ahi ∧ st.bestj + st.bestsize < bhi ∧
        a.getD (st.besti + st.bestsize) ' ' = b.getD (st.bestj + st.bestsize) ' ' then
      extendFwd a b ahi bhi fuel ⟨st.besti, st.bestj, st.bestsize + 1⟩
    else st

/-- `find_longest_match(alo, ahi, blo, bhi)`: main loop, then backward and
forward extension.  (The two junk-extension loops are no-ops since `bjunk`
is empty.)  The fuel of `extendBack` is an upper bound on the possible
backward steps (`besti - alo ≤ besti`), that of `extendFwd` on the forward
steps (`ahi - (besti + bestsize) ≤ ahi`). -/
def findLongestMatch (a b : List Char) (alo ahi blo bhi : Nat) : FlmState :=
  let st := flmLoop a b blo bhi alo (ahi - alo) (fun _ => 0) ⟨alo, blo, 0⟩
  extendFwd a b ahi bhi ahi (extendBack a b alo blo st.besti st)

/-- Total size of the matching blocks of `get_matching_blocks` within the
given ranges, by the standard divide-and-conquer recursion (CPython uses an
explicit queue; the multiset of blocks, hence the total size, is the same,
and the final merging of adjacent blocks also preserves the total size).
Each recursive call strictly shrinks `ahi - alo`, so fuel `ahi - alo`
suffices at the top level. -/
def matchTotalFuel (a b : List Char) : Nat → Nat → Nat → Nat → Nat → Nat
  | 0, _, _, _, _ => 0
  | fuel + 1, alo, ahi, blo, bhi =>
    let st := findLongestMatch a b alo ahi blo bhi
    if st.bestsize = 0 then 0
    else
      matchTotalFuel a b fuel alo st.besti blo st.bestj + st.bestsize +
        matchTotalFuel a b fuel (st.besti + st.bestsize) ahi
          (st.bestj + st.bestsize) bhi

/-- `M` = total number of matched characters between `a` and `b`. -/
def matchTotal (a b : List Char) : Nat :=
  matchTotalFuel a b a.length 0 a.length 0 b.length

/-- `similar(a, b) = SequenceMatcher(None, a, b).ratio()`, computed exactly
in `ℚ`: `2*M/T` with `T = len(a) + len(b)`, and `1` when `T = 0`. -/
def similar (a b : List Char) : ℚ :=
  let t := a.length + b.length
  if t = 0 then 1 else 2 * (matchTotal a b : ℚ) / (t : ℚ)

/-! ### Range validity of `find_longest_match`, and `ratio ∈ [0, 1]` -/

/-- The best block lies within the search ranges. -/
def FlmValid (alo ahi blo bhi : Nat) (st : FlmState) : Prop :=
  alo ≤ st.besti ∧ st.besti + st.bestsize ≤ ahi ∧
  blo ≤ st.bestj ∧ st.bestj + st.bestsize ≤ bhi

/-- Bounds on a `j2len` row: every entry is at most the number of rows
processed so far, and a nonzero entry at column `j` is at most `j + 1 - blo`
(stated additively to stay in `Nat`). -/
def PrevB (blo rows : Nat) (prev : Nat → Nat) : Prop :=
  ∀ j, prev j ≤ rows ∧ (prev j ≠ 0 → prev j + blo ≤ j + 1)

theorem mem_jsFor {a b : List Char} {i blo bhi j : Nat}
    (h : j ∈ jsFor a b i blo bhi) : blo ≤ j ∧ j < bhi := by
  unfold jsFor at h
  have h2 := (List.mem_filter.mp h).2
  simp only [Bool.and_eq_true, decide_eq_true_eq] at h2
  exact h2

theorem rowK_le {blo rows : Nat} {prev : Nat → Nat} (hp : PrevB blo rows prev)
    {j : Nat} (hj : blo ≤ j) :
    rowK prev j ≤ rows + 1 ∧ rowK prev j + blo ≤ j + 1 := by
  unfold rowK
  by_cases h0 : j = 0
  · subst h0
    rw [if_pos rfl]
    omega
  · rw [if_neg h0]
    have h1 := hp (j - 1)
    by_cases hz : prev (j - 1) = 0
    · rw [hz]; omega
    · have h2 := h1.2 hz
      omega

theorem rowStepBest_valid {alo ahi blo bhi i : Nat} {prev : Nat → Nat}
    {st : FlmState} {j : Nat}
    (hi : alo ≤ i) (hia : i < ahi) (hp : PrevB blo (i - alo) prev)
    (hj : blo ≤ j) (hjb : j < bhi) (hv : FlmValid alo ahi blo bhi st) :
    FlmValid alo ahi blo bhi (rowStepBest i prev st j) := by
  unfold rowStepBest
  obtain ⟨hk1, hk2⟩ := rowK_le hp hj
  by_cases h : st.bestsize < rowK prev j
  · simp only [if_pos h]
    unfold FlmValid
    simp only
    omega
  · simp only [if_neg h]
    exact hv

theorem rowBest_valid {alo ahi blo bhi i : Nat} {prev : Nat → Nat}
    (hi : alo ≤ i) (hia : i < ahi) (hp : PrevB blo (i - alo) prev) :
    ∀ (js : List Nat) (st : FlmState), (∀ j ∈ js, blo ≤ j ∧ j < bhi) →
      FlmValid alo ahi blo bhi st →
      FlmValid alo ahi blo bhi (rowBest i prev js st) := by
  intro js
  induction js with
  | nil => intro st _ hv; exact hv
  | cons j t ih =>
    intro st hmem hv
    show FlmValid alo ahi blo bhi (rowBest i prev t (rowStepBest i prev st j))
    obtain ⟨hj, hjb⟩ := hmem j (List.mem_cons_self j t)
    exact ih _ (fun x hx => hmem x (List.mem_cons_of_mem j hx))
      (rowStepBest_valid hi hia hp hj hjb hv)

theorem rowNext_prevB {blo rows : Nat} {prev : Nat → Nat} {js : List Nat}
    (hp : PrevB blo rows prev) (hjs : ∀ j ∈ js, blo ≤ j) :
    PrevB blo (rows + 1) (rowNext prev js) := by
  intro j
  unfold rowNext
  by_cases h : j ∈ js
  · rw [if_pos h]
    obtain ⟨hk1, hk2⟩ := rowK_le hp (hjs j h)
    exact ⟨hk1, fun _ => hk2⟩
  · rw [if_neg h]
    omega

theorem flmLoop_valid (a b : List Char) (alo ahi blo bhi : Nat) (cnt : Nat) :
    ∀ (i : Nat) (prev : Nat → Nat) (st : FlmState),
      i + cnt = ahi → alo ≤ i → PrevB blo (i - alo) prev →
      FlmValid alo ahi blo bhi st →
      FlmValid alo ahi blo bhi (flmLoop a b blo bhi i cnt prev st) := by
  induction cnt with
  | zero => intro i prev st _ _ _ hv; exact hv
  | succ n ih =>
    intro i prev st hia hi hp hv
    show FlmValid alo ahi blo bhi
      (flmLoop a b blo bhi (i + 1) n (rowNext prev (jsFor a b i blo bhi))
        (rowBest i prev (jsFor a b i blo bhi) st))
    apply ih (i + 1) _ _ (by omega) (by omega)
    · have h := @rowNext_prevB blo (i - alo) prev (jsFor a b i blo bhi) hp
        (fun j hj => (mem_jsFor hj).1)
      have heq : i + 1 - alo = (i - alo) + 1 := by omega
      rw [heq]
      exact h
    · exact rowBest_valid hi (by omega) hp _ st (fun j hj => mem_jsFor hj) hv

theorem extendBack_valid (a b : List Char) {alo ahi blo bhi : Nat} :
    ∀ (fuel : Nat) (st : FlmState), FlmValid alo ahi blo bhi st →
      FlmValid alo ahi blo bhi (extendBack a b alo blo fuel st) := by
  intro fuel
  induction fuel with
  | zero => intro st hv; exact hv
  | succ n ih =>
    intro st hv
    unfold extendBack
    by_cases h : alo < st.besti ∧ blo < st.bestj ∧
        a.getD (st.besti - 1) ' ' = b.getD (st.bestj - 1) ' '
    · rw [if_pos h]
      apply ih
      unfold FlmValid at hv ⊢
      simp only
      omega
    · rw [if_neg h]
      exact hv

theorem extendFwd_valid (a b : List Char) {alo ahi blo bhi : Nat} :
    ∀ (fuel : Nat) (st : FlmState), FlmValid alo ahi blo bhi st →
      FlmValid alo ahi blo bhi (extendFwd a b ahi bhi fuel st) := by
  intro fuel
  induction fuel with
  | zero => intro st hv; exact hv
  | succ n ih =>
    intro st hv
    unfold extendFwd
    by_cases h : st.besti + st.bestsize < ahi ∧ st.bestj + st.bestsize < bhi ∧
        a.getD (st.besti + st.bestsize) ' ' = b.getD (st.bestj + st.bestsize) ' '
    · rw [if_pos h]
      apply ih
      unfold FlmValid at hv ⊢
      simp only
      omega
    · rw [if_neg h]
      exact hv

theorem findLongestMatch_valid (a b : List Char) (alo ahi blo bhi : Nat)
    (h1 : alo ≤ ahi) (h2 : blo ≤ bhi) :
    FlmValid alo ahi blo bhi (findLongestMatch a b alo ahi blo bhi) := by
  unfold findLongestMatch
  apply extendFwd_valid
  apply extendBack_valid
  apply flmLoop_valid a b alo ahi blo bhi (ahi - alo) alo _ _ (by omega)
    (le_refl alo)
  · intro j
    simp only [Nat.sub_self]
    omega
  · show alo ≤ alo ∧ alo + 0 ≤ ahi ∧ blo ≤ blo ∧ blo + 0 ≤ bhi
    omega

theorem matchTotalFuel_le (a b : List Char) :
    ∀ (fuel : Nat) (alo ahi blo bhi : Nat), alo ≤ ahi → blo ≤ bhi →
      matchTotalFuel a b fuel alo ahi blo bhi ≤ ahi - alo ∧
      matchTotalFuel a b fuel alo ahi blo bhi ≤ bhi - blo := by
  intro fuel
  induction fuel with
  | zero =>
    intro alo ahi blo bhi _ _
    exact ⟨Nat.zero_le _, Nat.zero_le _⟩
  | succ n ih =>
    intro alo ahi blo bhi h1 h2
    have hv := findLongestMatch_valid a b alo ahi blo bhi h1 h2
    unfold matchTotalFuel
    set st := findLongestMatch a b alo ahi blo bhi with hst
    by_cases hz : st.bestsize = 0
    · rw [if_pos hz]
      exact ⟨Nat.zero_le _, Nat.zero_le _⟩
    · rw [if_neg hz]
      unfold FlmValid at hv
      obtain ⟨l1, l2⟩ := ih alo st.besti blo st.bestj hv.1 hv.2.2.1
      obtain ⟨r1, r2⟩ := ih (st.besti + st.bestsize) ahi
        (st.bestj + st.bestsize) bhi hv.2.1 hv.2.2.2
      omega

theorem matchTotal_le (a b : List Char) :
    matchTotal a b ≤ a.length ∧ matchTotal a b ≤ b.length := by
  have h := matchTotalFuel_le a b a.length 0 a.length 0 b.length
    (Nat.zero_le _) (Nat.zero_le _)
  simpa [matchTotal] using h

theorem similar_nonneg (a b : List Char) : 0 ≤ similar a b := by
  unfold similar
  by_cases h : a.length + b.length = 0
  · rw [if_pos h]; norm_num
  · rw [if_neg h]
    positivity

theorem similar_le_one (a b : List Char) : similar a b ≤ 1 := by
  unfold similar
  by_cases h : a.length + b.length = 0
  · rw [if_pos h]
  · rw [if_neg h]
    rw [div_le_one (by positivity)]
    have hm := matchTotal_le a b
    push_cast
    have : (matchTotal a b : ℚ) ≤ a.length ∧ (matchTotal a b : ℚ) ≤ b.length := by
      exact_mod_cast hm
    linarith

/-! ### `similar x x = 1` for every string

Comparing a string with itself, every position `j` the inner loop can visit
carries the same character as the current row `i`, so the diagonal entry is
always a (weakly) longest run seen so far and every best-block update lands
on the diagonal (`besti = bestj`) — autojunk only removes whole characters
from `b2j`, which shortens runs on and off the diagonal alike.  The two
extension loops ignore `b2j` (`bjunk` is empty), and from a diagonal block
they extend through *every* character, popular or not, until the whole
string `(0, 0, n)` is covered.  Hence the ratio is `1` at every length. -/

/-- In a self-comparison, whether position `i` is indexed by `b2j`: it is in
range and its character is not autojunk-popular. -/
def selfMember (a : List Char) (i : Nat) : Bool :=
  decide (i < a.length) && !(isPopular a (a.getD i ' '))

/-- Length of the maximal run of `b2j`-indexed positions ending at `i`, i.e.
the `j2len` value the main loop computes on the diagonal of a
self-comparison. -/
def dRun (a : List Char) : Nat → Nat
  | 0 => if selfMember a 0 then 1 else 0
  | i + 1 => if selfMember a (i + 1) then dRun a i + 1 else 0

theorem extendBack_stuck (a b : List Char) (alo blo : Nat) (st : FlmState)
    (h : ¬(alo < st.besti ∧ blo < st.bestj ∧
        a.getD (st.besti - 1) ' ' = b.getD (st.bestj - 1) ' ')) :
    ∀ fuel, extendBack a b alo blo fuel st = st := by
  intro fuel
  cases fuel with
  | zero => rfl
  | succ n =>
    unfold extendBack
    rw [if_neg h]

theorem extendFwd_stuck (a b : List Char) (ahi bhi : Nat) (st : FlmState)
    (h : ¬(st.besti + st.bestsize < ahi ∧ st.bestj + st.bestsize < bhi ∧
        a.getD (st.besti + st.bestsize) ' ' = b.getD (st.bestj + st.bestsize) ' ')) :
    ∀ fuel, extendFwd a b ahi bhi fuel st = st := by
  intro fuel
  cases fuel with
  | zero => rfl
  | succ n =>
    unfold extendFwd
    rw [if_neg h]

theorem mem_bOccurrences_self (a : List Char) {i : Nat} (hi : i < a.length) :
    i ∈ bOccurrences a (a.getD i ' ') := by
  unfold bOccurrences
  exact List.mem_filter.mpr ⟨List.mem_range.mpr hi, by simp⟩

theorem mem_b2j_self {a : List Char} {i j : Nat}
    (h : j ∈ b2j a (a.getD i ' ')) :
    j < a.length ∧ a.getD j ' ' = a.getD i ' ' ∧
    isPopular a (a.getD i ' ') = false := by
  unfold b2j at h
  by_cases hp : isPopular a (a.getD i ' ')
  · rw [if_pos hp] at h
    exact absurd h (List.not_mem_nil j)
  · rw [if_neg hp] at h
    unfold bOccurrences at h
    have h1 := List.mem_filter.mp h
    refine ⟨List.mem_range.mp h1.1, ?_, by simpa using hp⟩
    simpa using h1.2

/-- On a self-comparison with the full ranges, the `[blo, bhi)` filter keeps
all of `b2j`. -/
theorem jsFor_self_eq (a : List Char) (i : Nat) :
    jsFor a a i 0 a.length = b2j a (a.getD i ' ') := by
  unfold jsFor
  apply List.filter_eq_self.mpr
  intro j hj
  have := (mem_b2j_self hj).1
  simp [this]

theorem selfMember_of_mem {a : List Char} {i j : Nat}
    (hi : i < a.length) (h : j ∈ jsFor a a i 0 a.length) :
    selfMember a j = true ∧ selfMember a i = true ∧ j < a.length := by
  rw [jsFor_self_eq] at h
  obtain ⟨hjn, hchar, hpop⟩ := mem_b2j_self h
  unfold selfMember
  refine ⟨?_, ?_, hjn⟩
  · rw [hchar, hpop]
    simp [hjn]
  · rw [hpop]
    simp [hi]

theorem mem_jsFor_self_of {a : List Char} {i : Nat}
    (h : selfMember a i = true) : i ∈ jsFor a a i 0 a.length := by
  rw [jsFor_self_eq]
  unfold selfMember at h
  simp only [Bool.and_eq_true, decide_eq_true_eq, Bool.not_eq_true'] at h
  unfold b2j
  rw [if_neg (by rw [h.2]; simp)]
  exact mem_bOccurrences_self a h.1

theorem jsFor_self_empty {a : List Char} {i : Nat} (hi : i < a.length)
    (h : selfMember a i = false) : jsFor a a i 0 a.length = [] := by
  rw [jsFor_self_eq]
  unfold selfMember at h
  simp only [Bool.and_eq_false_iff, decide_eq_false_iff_not, not_lt,
    Bool.not_eq_false'] at h
  unfold b2j
  rcases h with h | h
  · omega
  · rw [if_pos h]

theorem dRun_zero_mem {a : List Char} (h : selfMember a 0 = true) :
    dRun a 0 = 1 := by
  show (if selfMember a 0 then 1 else 0) = 1
  rw [if_pos h]

theorem dRun_succ_mem {a : List Char} {i : Nat}
    (h : selfMember a (i + 1) = true) : dRun a (i + 1) = dRun a i + 1 := by
  show (if selfMember a (i + 1) then dRun a i + 1 else 0) = dRun a i + 1
  rw [if_pos h]

theorem dRun_not_mem {a : List Char} {i : Nat} (h : selfMember a i = false) :
    dRun a i = 0 := by
  cases i with
  | zero =>
    show (if selfMember a 0 then 1 else 0) = 0
    rw [h]
    simp
  | succ i' =>
    show (if selfMember a (i' + 1) then dRun a i' + 1 else 0) = 0
    rw [h]
    simp

theorem dRun_mem_pos {a : List Char} {i : Nat} (h : selfMember a i = true) :
    1 ≤ dRun a i := by
  cases i with
  | zero => rw [dRun_zero_mem h]
  | succ i' => rw [dRun_succ_mem h]; omega

theorem bOccurrences_split (a : List Char) (i : Nat) (hi : i < a.length) :
    bOccurrences a (a.getD i ' ') =
      (List.range' 0 i).filter (fun j => decide (a.getD j ' ' = a.getD i ' ')) ++
      i :: (List.range' (i + 1) (a.length - (i + 1))).filter
        (fun j => decide (a.getD j ' ' = a.getD i ' ')) := by
  unfold bOccurrences
  rw [List.range_eq_range']
  have h1 : List.range' 0 i ++ List.range' i (a.length - i) =
      List.range' 0 a.length := by
    have h := List.range'_append 0 i (a.length - i) 1
    simp only [one_mul, Nat.zero_add] at h
    rw [h]
    congr 1
    omega
  rw [← h1, List.filter_append]
  have h2 : List.range' i (a.length - i) =
      i :: List.range' (i + 1) (a.length - (i + 1)) := by
    rw [show a.length - i = (a.length - (i + 1)) + 1 from by omega]
    rfl
  rw [h2, List.filter_cons_of_pos (by simp)]

theorem foldl_no_update (i : Nat) (prev : Nat → Nat) :
    ∀ (js : List Nat) (st : FlmState),
      (∀ j ∈ js, rowK prev j ≤ st.bestsize) →
      js.foldl (rowStepBest i prev) st = st := by
  intro js
  induction js with
  | nil => intro st _; rfl
  | cons j t ih =>
    intro st h
    rw [List.foldl_cons]
    have hst : rowStepBest i prev st j = st := by
      unfold rowStepBest
      rw [if_neg (Nat.not_lt.mpr (h j (List.mem_cons_self j t)))]
    rw [hst]
    exact ih st (fun x hx => h x (List.mem_cons_of_mem j hx))

theorem rowK_self_bounds {a : List Char} {i : Nat} (hi : i < a.length)
    {prev : Nat → Nat}
    (hdiag : i ≠ 0 → prev (i - 1) = dRun a (i - 1))
    (hcol : ∀ j, prev j ≤ dRun a j)
    (hrow : ∀ j, i ≠ 0 → prev j ≤ dRun a (i - 1))
    (hzero : i = 0 → ∀ j, prev j = 0)
    {j : Nat} (hj : j ∈ jsFor a a i 0 a.length) :
    rowK prev j ≤ dRun a j ∧ rowK prev j ≤ dRun a i ∧
    (j = i → rowK prev j = dRun a i) := by
  obtain ⟨hmj, hmi, hjn⟩ := selfMember_of_mem hi hj
  have hdi : 1 ≤ dRun a i := dRun_mem_pos hmi
  unfold rowK
  by_cases h0 : j = 0
  · subst h0
    rw [if_pos rfl]
    have hd0 : dRun a 0 = 1 := dRun_zero_mem hmj
    refine ⟨by omega, by omega, ?_⟩
    intro hji
    rw [← hji]
    omega
  · rw [if_neg h0]
    have hdj : dRun a j = dRun a (j - 1) + 1 := by
      cases j with
      | zero => exact absurd rfl h0
      | succ j' => exact dRun_succ_mem hmj
    have hcolj := hcol (j - 1)
    by_cases hiz : i = 0
    · have hz := hzero hiz (j - 1)
      refine ⟨by omega, by omega, ?_⟩
      intro hji
      exact absurd (hji.trans hiz) h0
    · have hrowj := hrow (j - 1) hiz
      have hdi2 : dRun a i = dRun a (i - 1) + 1 := by
        cases i with
        | zero => exact absurd rfl hiz
        | succ i' => exact dRun_succ_mem hmi
      refine ⟨by omega, by omega, ?_⟩
      intro hji
      subst hji
      rw [hdiag h0, hdi2]

theorem rowBest_self_diag (a : List Char) (i : Nat) (hi : i < a.length)
    (prev : Nat → Nat) (st : FlmState)
    (hdiag : i ≠ 0 → prev (i - 1) = dRun a (i - 1))
    (hcol : ∀ j, prev j ≤ dRun a j)
    (hrow : ∀ j, i ≠ 0 → prev j ≤ dRun a (i - 1))
    (hzero : i = 0 → ∀ j, prev j = 0)
    (hbest : st.besti = st.bestj)
    (hsofar : ∀ i', i' < i → dRun a i' ≤ st.bestsize) :
    (rowBest i prev (jsFor a a i 0 a.length) st).besti =
      (rowBest i prev (jsFor a a i 0 a.length) st).bestj ∧
    st.bestsize ≤ (rowBest i prev (jsFor a a i 0 a.length) st).bestsize ∧
    ∀ i', i' < i + 1 →
      dRun a i' ≤ (rowBest i prev (jsFor a a i 0 a.length) st).bestsize := by
  by_cases hm : selfMember a i = true
  case neg =>
    have hf : selfMember a i = false := by simpa using hm
    rw [jsFor_self_empty hi hf]
    refine ⟨hbest, le_refl _, ?_⟩
    intro i' hi'
    by_cases hii : i' = i
    · rw [hii, dRun_not_mem hf]
      exact Nat.zero_le _
    · exact hsofar i' (by omega)
  case pos =>
    have hmfacts : isPopular a (a.getD i ' ') = false := by
      unfold selfMember at hm
      simp only [Bool.and_eq_true, decide_eq_true_eq, Bool.not_eq_true'] at hm
      exact hm.2
    have hsplit : jsFor a a i 0 a.length =
        (List.range' 0 i).filter
          (fun j => decide (a.getD j ' ' = a.getD i ' ')) ++
        i :: (List.range' (i + 1) (a.length - (i + 1))).filter
          (fun j => decide (a.getD j ' ' = a.getD i ' ')) := by
      rw [jsFor_self_eq]
      unfold b2j
      rw [if_neg (by rw [hmfacts]; simp)]
      exact bOccurrences_split a i hi
    have himem : i ∈ jsFor a a i 0 a.length := mem_jsFor_self_of hm
    have hki : rowK prev i = dRun a i :=
      (rowK_self_bounds hi hdiag hcol hrow hzero himem).2.2 rfl
    have hstep : (rowStepBest i prev st i).besti =
        (rowStepBest i prev st i).bestj ∧
        st.bestsize ≤ (rowStepBest i prev st i).bestsize ∧
        dRun a i ≤ (rowStepBest i prev st i).bestsize := by
      unfold rowStepBest
      by_cases hup : st.bestsize < rowK prev i
      · rw [if_pos hup]
        refine ⟨rfl, ?_, ?_⟩
        · show st.bestsize ≤ rowK prev i
          omega
        · show dRun a i ≤ rowK prev i
          omega
      · rw [if_neg hup]
        exact ⟨hbest, le_refl _, by omega⟩
    rw [hsplit]
    unfold rowBest
    rw [List.foldl_append]
    rw [foldl_no_update i prev _ st (by
      intro j hjL
      have hjmem : j ∈ jsFor a a i 0 a.length := by
        rw [hsplit]
        exact List.mem_append_left _ hjL
      have hjlt : j < i := by
        have hmem := (List.mem_filter.mp hjL).1
        obtain ⟨v, hv, hveq⟩ := List.mem_range'.mp hmem
        omega
      exact Nat.le_trans
        ((rowK_self_bounds hi hdiag hcol hrow hzero hjmem).1)
        (hsofar j hjlt))]
    rw [List.foldl_cons]
    rw [foldl_no_update i prev _ (rowStepBest i prev st i) (by
      intro j hjR
      have hjmem : j ∈ jsFor a a i 0 a.length := by
        rw [hsplit]
        exact List.mem_append_right _ (List.mem_cons_of_mem i hjR)
      exact Nat.le_trans
        ((rowK_self_bounds hi hdiag hcol hrow hzero hjmem).2.1)
        hstep.2.2)]
    refine ⟨hstep.1, hstep.2.1, ?_⟩
    intro i' hi'
    by_cases hii : i' = i
    · rw [hii]
      exact hstep.2.2
    · exact Nat.le_trans (hsofar i' (by omega)) hstep.2.1

theorem rowNext_self_diag (a : List Char) (i : Nat) (hi : i < a.length)
    (prev : Nat → Nat)
    (hdiag : i ≠ 0 → prev (i - 1) = dRun a (i - 1))
    (hcol : ∀ j, prev j ≤ dRun a j)
    (hrow : ∀ j, i ≠ 0 → prev j ≤ dRun a (i - 1))
    (hzero : i = 0 → ∀ j, prev j = 0) :
    rowNext prev (jsFor a a i 0 a.length) i = dRun a i ∧
    (∀ j, rowNext prev (jsFor a a i 0 a.length) j ≤ dRun a j) ∧
    (∀ j, rowNext prev (jsFor a a i 0 a.length) j ≤ dRun a i) := by
  refine ⟨?_, ?_, ?_⟩
  · unfold rowNext
    by_cases hmem : i ∈ jsFor a a i 0 a.length
    · rw [if_pos hmem]
      exact (rowK_self_bounds hi hdiag hcol hrow hzero hmem).2.2 rfl
    · rw [if_neg hmem]
      have hf : selfMember a i = false := by
        by_cases h : selfMember a i = true
        · exact absurd (mem_jsFor_self_of h) hmem
        · simpa using h
      rw [dRun_not_mem hf]
  · intro j
    unfold rowNext
    by_cases hjm : j ∈ jsFor a a i 0 a.length
    · rw [if_pos hjm]
      exact (rowK_self_bounds hi hdiag hcol hrow hzero hjm).1
    · rw [if_neg hjm]
      omega
  · intro j
    unfold rowNext
    by_cases hjm : j ∈ jsFor a a i 0 a.length
    · rw [if_pos hjm]
      exact (rowK_self_bounds hi hdiag hcol hrow hzero hjm).2.1
    · rw [if_neg hjm]
      omega

theorem flmLoop_self_diag (a : List Char) (cnt : Nat) :
    ∀ (i : Nat) (prev : Nat → Nat) (st : FlmState),
      i + cnt = a.length →
      (i ≠ 0 → prev (i - 1) = dRun a (i - 1)) →
      (∀ j, prev j ≤ dRun a j) →
      (∀ j, i ≠ 0 → prev j ≤ dRun a (i - 1)) →
      (i = 0 → ∀ j, prev j = 0) →
      st.besti = st.bestj →
      (∀ i', i' < i → dRun a i' ≤ st.bestsize) →
      (flmLoop a a 0 a.length i cnt prev st).besti =
        (flmLoop a a 0 a.length i cnt prev st).bestj := by
  induction cnt with
  | zero =>
    intro i prev st _ _ _ _ _ hbest _
    exact hbest
  | succ n ih =>
    intro i prev st hia hdiag hcol hrow hzero hbest hsofar
    have hi : i < a.length := by omega
    show (flmLoop a a 0 a.length (i + 1) n
        (rowNext prev (jsFor a a i 0 a.length))
        (rowBest i prev (jsFor a a i 0 a.length) st)).besti =
      (flmLoop a a 0 a.length (i + 1) n
        (rowNext prev (jsFor a a i 0 a.length))
        (rowBest i prev (jsFor a a i 0 a.length) st)).bestj
    obtain ⟨hrb1, hrb2, hrb3⟩ :=
      rowBest_self_diag a i hi prev st hdiag hcol hrow hzero hbest hsofar
    obtain ⟨hrn1, hrn2, hrn3⟩ :=
      rowNext_self_diag a i hi prev hdiag hcol hrow hzero
    exact ih (i + 1) _ _ (by omega) (fun _ => hrn1) hrn2 (fun j _ => hrn3 j)
      (fun h => absurd h (Nat.succ_ne_zero i)) hrb1 hrb3

theorem extendBack_self (a : List Char) :
    ∀ (t fuel s : Nat), t ≤ fuel →
      extendBack a a 0 0 fuel ⟨t, t, s⟩ = ⟨0, 0, s + t⟩ := by
  intro t
  induction t with
  | zero =>
    intro fuel s _
    rw [extendBack_stuck a a 0 0 ⟨0, 0, s⟩
      (fun hc => absurd hc.1 (lt_irrefl 0)) fuel]
    rfl
  | succ t ih =>
    intro fuel s hfuel
    obtain ⟨f, rfl⟩ : ∃ f, fuel = f + 1 := ⟨fuel - 1, by omega⟩
    unfold extendBack
    rw [if_pos ⟨(by omega : 0 < t + 1), (by omega : 0 < t + 1), rfl⟩]
    show extendBack a a 0 0 f ⟨t, t, s + 1⟩ = ⟨0, 0, s + (t + 1)⟩
    rw [ih f (s + 1) (by omega)]
    have h : s + 1 + t = s + (t + 1) := by omega
    rw [h]

theorem extendFwd_self (a : List Char) :
    ∀ (fuel m : Nat), m ≤ a.length → a.length - m ≤ fuel →
      extendFwd a a a.length a.length fuel ⟨0, 0, m⟩ = ⟨0, 0, a.length⟩ := by
  intro fuel
  induction fuel with
  | zero =>
    intro m hm hf
    have h : m = a.length := by omega
    rw [h]
    rfl
  | succ f ih =>
    intro m hm hf
    by_cases hend : m = a.length
    · rw [hend]
      exact extendFwd_stuck a a a.length a.length ⟨0, 0, a.length⟩
        (fun hc => by
          have h1 : 0 + a.length < a.length := hc.1
          omega) (f + 1)
    · unfold extendFwd
      rw [if_pos ⟨(by omega : 0 + m < a.length),
        (by omega : 0 + m < a.length), rfl⟩]
      exact ih (m + 1) (by omega) (by omega)

theorem findLongestMatch_self (a : List Char) :
    findLongestMatch a a 0 a.length 0 a.length = ⟨0, 0, a.length⟩ := by
  unfold findLongestMatch
  have hvalid : FlmValid 0 a.length 0 a.length
      (flmLoop a a 0 a.length 0 (a.length - 0) (fun _ => 0) ⟨0, 0, 0⟩) := by
    apply flmLoop_valid a a 0 a.length 0 a.length (a.length - 0) 0 (fun _ => 0)
      ⟨0, 0, 0⟩ (by omega) (le_refl 0)
    · intro j
      exact ⟨Nat.zero_le _, fun h => absurd rfl h⟩
    · show (0 : Nat) ≤ 0 ∧ 0 + 0 ≤ a.length ∧ (0 : Nat) ≤ 0 ∧ 0 + 0 ≤ a.length
      omega
  have hdg : (flmLoop a a 0 a.length 0 (a.length - 0) (fun _ => 0)
      ⟨0, 0, 0⟩).besti = (flmLoop a a 0 a.length 0 (a.length - 0)
      (fun _ => 0) ⟨0, 0, 0⟩).bestj := by
    have h0 : a.length - 0 = a.length := Nat.sub_zero _
    rw [h0]
    exact flmLoop_self_diag a a.length 0 (fun _ => 0) ⟨0, 0, 0⟩ (by omega)
      (fun h => absurd rfl h) (fun j => Nat.zero_le _)
      (fun j h => absurd rfl h) (fun _ j => rfl) rfl
      (fun i' hi' => absurd hi' (Nat.not_lt_zero i'))
  rcases hflm : flmLoop a a 0 a.length 0 (a.length - 0) (fun _ => 0)
      ⟨0, 0, 0⟩ with ⟨bi, bj, bs⟩
  rw [hflm] at hvalid hdg
  have hdg' : bi = bj := hdg
  subst hdg'
  have hv2 : bi + bs ≤ a.length := hvalid.2.1
  show extendFwd a a a.length a.length a.length
    (extendBack a a 0 0 bi ⟨bi, bi, bs⟩) = ⟨0, 0, a.length⟩
  rw [extendBack_self a bi bi bs (le_refl bi)]
  exact extendFwd_self a a.length (bs + bi) (by omega) (by omega)

theorem matchTotalFuel_degenerate (a b : List Char) (fuel alo blo : Nat) :
    matchTotalFuel a b fuel alo alo blo blo = 0 := by
  cases fuel with
  | zero => rfl
  | succ n =>
    have hflm : findLongestMatch a b alo alo blo blo = ⟨alo, blo, 0⟩ := by
      unfold findLongestMatch
      rw [Nat.sub_self]
      show extendFwd a b alo blo alo
        (extendBack a b alo blo alo ⟨alo, blo, 0⟩) = ⟨alo, blo, 0⟩
      rw [extendBack_stuck a b alo blo ⟨alo, blo, 0⟩ (fun hc => by
        have h1 : alo < alo := hc.1
        omega)]
      exact extendFwd_stuck a b alo blo ⟨alo, blo, 0⟩ (fun hc => by
        have h1 : alo + 0 < alo := hc.1
        omega) alo
    unfold matchTotalFuel
    rw [hflm]
    simp

theorem matchTotal_self (a : List Char) : matchTotal a a = a.length := by
  unfold matchTotal
  cases hlen : a.length with
  | zero => rfl
  | succ m =>
    have hf := findLongestMatch_self a
    rw [hlen] at hf
    unfold matchTotalFuel
    rw [hf]
    rw [if_neg (show ¬((⟨0, 0, m + 1⟩ : FlmState).bestsize = 0) from
      Nat.succ_ne_zero m)]
    show matchTotalFuel a a m 0 0 0 0 + (m + 1) +
      matchTotalFuel a a m (0 + (m + 1)) (m + 1) (0 + (m + 1)) (m + 1) = m + 1
    rw [Nat.zero_add, matchTotalFuel_degenerate, matchTotalFuel_degenerate]
    omega

theorem similar_self (a : List Char) : similar a a = 1 := by
  unfold similar
  by_cases h : a.length + a.length = 0
  · rw [if_pos h]
  · rw [if_neg h]
    rw [matchTotal_self a]
    rw [div_eq_one_iff_eq (by exact_mod_cast h)]
    push_cast
    ring

/-- Claim C8 counterexample: `similar` is not symmetric.  The greedy
longest-matching-block decomposition of `SequenceMatcher` depends on the
argument order: `similar("abcb", "bcab")` keeps only the block `"ab"`
(ratio `1/2`), while `similar("bcab", "abcb")` keeps `"bc"` and then a
trailing `"b"` (ratio `3/4`). -/
theorem similar_not_symmetric :
    similar "abcb".toList "bcab".toList = 1 / 2 ∧
    similar "bcab".toList "abcb".toList = 3 / 4 ∧
    similar "abcb".toList "bcab".toList ≠ similar "bcab".toList "abcb".toList := by
  have h1 : similar "abcb".toList "bcab".toList = 1 / 2 := by
    unfold similar
    rw [show matchTotal "abcb".toList "bcab".toList = 2 from by decide,
      show "abcb".toList.length + "bcab".toList.length = 8 from by decide]
    norm_num
  have h2 : similar "bcab".toList "abcb".toList = 3 / 4 := by
    unfold similar
    rw [show matchTotal "bcab".toList "abcb".toList = 3 from by decide,
      show "bcab".toList.length + "abcb".toList.length = 8 from by decide]
    norm_num
  refine ⟨h1, h2, ?_⟩
  rw [h1, h2]
  norm_num

/-- Claim C8 (amended): for all strings `a`, `b`, `similar a b` lies in
`[0, 1]`, and `similar x x = 1` for every `x` — the empty string and strings
of any length included, autojunk notwithstanding; symmetry, however, fails
in general (see the counterexample). -/
theorem similar_bounds_and_self (a b x : List Char) :
    0 ≤ similar a b ∧ similar a b ≤ 1 ∧ similar x x = 1 :=
  ⟨similar_nonneg a b, similar_le_one a b, similar_self x⟩

/-! ## Dataset loader / column picker
(find.py lines 298-326, checkpoint lines 375-401)

```python
df.columns = df.columns.str.strip().str.lower()

def pick(df, cols):
    for c in cols:
        if c in df.columns:
            return c
    return None

sym_col = pick(df, ["symbol_std", "symbol", "ticker", "ticker_symbol"])
name_col = pick(df, ["name_std", "name", "project name", "project_name", "ico_name"])
if not sym_col and "coin_ticker" in df.columns:
    sym_col = "coin_ticker"
if not name_col and "coin_ticker" in df.columns:
    name_col = "coin_ticker"
```
(the checkpoint variant additionally lists `"coin_ticker"` at the end of the
symbol candidates). -/

/-- Header normalization: `df.columns.str.strip().str.lower()`. -/
def normHeader (l : List Char) : List Char := pyLower (pyStrip l)

/-- `pick(df, cols)`: the first candidate name present among the dataframe's
(normalized) columns, else `None`. -/
def pick (cols : List (List Char)) : List (List Char) → Option (List Char)
  | [] => none
  | c :: rest => if c ∈ cols then some c else pick cols rest

/-- Symbol-column candidates in `find.py`. -/
def symCandidates : List (List Char) :=
  ["symbol_std".toList, "symbol".toList, "ticker".toList, "ticker_symbol".toList]

/-- Symbol-column candidates in the checkpoint variant. -/
def symCandidatesCk : List (List Char) :=
  ["symbol_std".toList, "symbol".toList, "ticker".toList, "ticker_symbol".toList,
    "coin_ticker".toList]

/-- Name-column candidates (identical in both variants). -/
def nameCandidates : List (List Char) :=
  ["name_std".toList, "name".toList, "project name".toList, "project_name".toList,
    "ico_name".toList]

/-- Symbol-column selection in `main`: `pick` over the candidates, then the
`coin_ticker` fallback. -/
def selectSymCol (cands cols : List (List Char)) : Option (List Char) :=
  match pick cols cands with
  | some c => some c
  | none => if "coin_ticker".toList ∈ cols then some "coin_ticker".toList else none

/-- Name-column selection in `main`: `pick` over the name candidates, then
the `coin_ticker` fallback. -/
def selectNameCol (cols : List (List Char)) : Option (List Char) :=
  match pick cols nameCandidates with
  | some c => some c
  | none => if "coin_ticker".toList ∈ cols then some "coin_ticker".toList else none

/-- Claim C5 counterexample: with input headers `["Project Name",
"Ticker Symbol"]` (normalized to `["project name", "ticker symbol"]`), the
symbol-column selection returns `none` — not `"ticker symbol"` as claimed:
the candidate lists contain only `"ticker_symbol"` with an underscore, and
header normalization does not replace spaces. -/
theorem pick_ticker_symbol_cex :
    selectSymCol symCandidates
        (["Project Name".toList, "Ticker Symbol".toList].map normHeader) = none ∧
    selectSymCol symCandidatesCk
        (["Project Name".toList, "Ticker Symbol".toList].map normHeader) = none ∧
    (none : Option (List Char)) ≠ some "ticker symbol".toList := by
  decide

/-- Claim C5 (amended): with headers `["Project Name", "Ticker Symbol"]`, the
headers normalize (trim + lowercase) to `["project name", "ticker symbol"]`,
the column picker selects `"project name"` as the name column, and selects
no symbol column at all (in both script variants; the `coin_ticker` fallback
does not apply). -/
theorem pick_headers_result :
    (["Project Name".toList, "Ticker Symbol".toList].map normHeader =
      ["project name".toList, "ticker symbol".toList]) ∧
    selectNameCol (["Project Name".toList, "Ticker Symbol".toList].map normHeader) =
      some "project name".toList ∧
    selectSymCol symCandidates
      (["Project Name".toList, "Ticker Symbol".toList].map normHeader) = none ∧
    selectSymCol symCandidatesCk
      (["Project Name".toList, "Ticker Symbol".toList].map normHeader) = none := by
  decide

/-! ## The per-row resolution cascade
(checkpoint `main`, lines 403-456; `find.py` has the same structure with
three sources)

```python
sym_std = normalize_text(sym)
if not sym_std:
    rows_out.append({..., "coingecko_found": False, "cmc_found": False,
                     "coinpaprika_found": False, "foundico_found": False,
                     "note": "missing_symbol"})
    continue
cg_res = cg.find(symbol=sym, name=nam)
if cg_res.get("found"): continue
cmc_res = cmc.find(symbol=sym, name=nam)
if cmc_res.get("found"): continue
cpk_res = cpk.find(symbol=sym, name=nam)
if cpk_res.get("found"): continue
fdi_res = fdi.find(symbol=sym, name=nam)
if fdi_res.get("found"): continue
rows_out.append({..., "coingecko_found": False,
                 "cmc_found": False if args.cmc_key else "skipped_no_key",
                 "coinpaprika_found": False,
                 "foundico_found": False if fdi.enabled else "skipped_no_keys",
                 "note": "not_found_anywhere"})
```

The four resolvers are abstracted by an oracle `found : ResolverId → Bool`
giving, for this row, the `found` flag each resolver would report (the
"mocked resolvers" of the spec's testable property); the row function also
returns the list of resolvers it invoked, in invocation order. -/

/-- The four resolvers of the checkpoint variant, in cascade priority
order. -/
inductive ResolverId
  | cg
  | cmc
  | cpk
  | fdi
deriving DecidableEq, Repr

/-- The fixed cascade priority order. -/
def resolverOrder : List ResolverId := [.cg, .cmc, .cpk, .fdi]

/-- A per-source "found" slot of the output CSV: Python writes either a
boolean or a marker string in the same column. -/
inductive FoundFlag
  | bool (b : Bool)
  | str (s : List Char)
deriving DecidableEq, Repr

/-- One output row of the unresolved-tokens report. -/
structure OutRecord where
  source_dataset : List Char
  row_index : Nat
  symbol : List Char
  name : List Char
  coingecko_found : FoundFlag
  cmc_found : FoundFlag
  coinpaprika_found : FoundFlag
  foundico_found : FoundFlag
  note : List Char
deriving DecidableEq, Repr

/-- Process one input row: returns the list of resolvers invoked (in order)
and the record appended to `rows_out`, if any.  `cmcKey` is the truthiness
of `args.cmc_key`, `fdiEnabled` is `fdi.enabled`. -/
def processRow (found : ResolverId → Bool) (cmcKey fdiEnabled : Bool)
    (ds : List Char) (idx : Nat) (sym nam : List Char) :
    List ResolverId × Option OutRecord :=
  if normStr sym = [] then
    ([], some
      { source_dataset := ds, row_index := idx, symbol := sym, name := nam
        coingecko_found := .bool false, cmc_found := .bool false
        coinpaprika_found := .bool false, foundico_found := .bool false
        note := "missing_symbol".toList })
  else if found .cg then ([.cg], none)
  else if found .cmc then ([.cg, .cmc], none)
  else if found .cpk then ([.cg, .cmc, .cpk], none)
  else if found .fdi then ([.cg, .cmc, .cpk, .fdi], none)
  else ([.cg, .cmc, .cpk, .fdi], some
    { source_dataset := ds, row_index := idx, symbol := sym, name := nam
      coingecko_found := .bool false
      cmc_found := if cmcKey then .bool false else .str "skipped_no_key".toList
      coinpaprika_found := .bool false
      foundico_found :=
        if fdiEnabled then .bool false else .str "skipped_no_keys".toList
      note := "not_found_anywhere".toList })

/-- The whole loop body over a dataset: rows are processed in order and each
row's record (if any) is appended to the accumulation list. -/
def runRows (found : Nat → ResolverId → Bool) (cmcKey fdiEnabled : Bool)
    (ds : List Char) : List (Nat × List Char × List Char) → List OutRecord
  | [] => []
  | (idx, sym, nam) :: rest =>
    (processRow (found idx) cmcKey fdiEnabled ds idx sym nam).2.toList ++
      runRows found cmcKey fdiEnabled ds rest

/-- Claim C1: for a row whose normalized symbol is non-empty, the resolvers
are invoked strictly in the fixed priority order
`[coingecko, cmc, coinpaprika, foundico]`; if resolver `i` is the first to
report `found=true`, the invocation list is exactly the order's prefix up to
and including `i`, and no later resolver is ever invoked for that row. -/
theorem cascade_short_circuit (found : ResolverId → Bool) (cmcKey fdiEnabled : Bool)
    (ds : List Char) (idx : Nat) (sym nam : List Char)
    (hsym : normStr sym ≠ []) (i : Nat) (hi : i < 4)
    (hfound : found (resolverOrder.getD i .cg) = true)
    (hbefore : ∀ j, j < i → found (resolverOrder.getD j .cg) = false) :
    (processRow found cmcKey fdiEnabled ds idx sym nam).1 =
      resolverOrder.take (i + 1) ∧
    ∀ j, i < j → j < 4 → resolverOrder.getD j .cg ∉
      (processRow found cmcKey fdiEnabled ds idx sym nam).1 := by
  unfold processRow
  interval_cases i
  · have h0 : found .cg = true := hfound
    rw [if_neg hsym, if_pos h0]
    refine ⟨rfl, ?_⟩
    intro j h1 h4
    interval_cases j <;> decide
  · have h0 : found .cg = false := hbefore 0 (by omega)
    have h1 : found .cmc = true := hfound
    rw [if_neg hsym, if_neg (by rw [h0]; exact Bool.false_ne_true), if_pos h1]
    refine ⟨rfl, ?_⟩
    intro j hj h4
    interval_cases j <;> decide
  · have h0 : found .cg = false := hbefore 0 (by omega)
    have h1 : found .cmc = false := hbefore 1 (by omega)
    have h2 : found .cpk = true := hfound
    rw [if_neg hsym, if_neg (by rw [h0]; exact Bool.false_ne_true),
      if_neg (by rw [h1]; exact Bool.false_ne_true), if_pos h2]
    refine ⟨rfl, ?_⟩
    intro j hj h4
    interval_cases j
    decide
  · have h0 : found .cg = false := hbefore 0 (by omega)
    have h1 : found .cmc = false := hbefore 1 (by omega)
    have h2 : found .cpk = false := hbefore 2 (by omega)
    have h3 : found .fdi = true := hfound
    rw [if_neg hsym, if_neg (by rw [h0]; exact Bool.false_ne_true),
      if_neg (by rw [h1]; exact Bool.false_ne_true),
      if_neg (by rw [h2]; exact Bool.false_ne_true), if_pos h3]
    refine ⟨rfl, ?_⟩
    intro j hj h4
    omega

/-- Witness for `cascade_short_circuit`: the first resolver (CoinGecko)
reports `found=true` on a mocked cascade; only `[.cg]` is invoked and none
of the later resolvers appear in the invocation list. -/
theorem cascade_short_circuit_witness :
    (processRow (fun r => r = .cg) true true "d".toList 0 "BTC".toList
        "Bitcoin".toList).1 = resolverOrder.take 1 ∧
    ∀ j, 0 < j → j < 4 → resolverOrder.getD j .cg ∉
      (processRow (fun r => r = .cg) true true "d".toList 0 "BTC".toList
        "Bitcoin".toList).1 :=
  cascade_short_circuit (fun r => decide (r = .cg)) true true "d".toList 0
    "BTC".toList "Bitcoin".toList (by decide) 0 (by omega) (by decide)
    (fun j hj => absurd hj (by omega))

/-- Claim C2: a row whose symbol normalizes to the empty string invokes no
resolver at all, and contributes exactly one output record, whose `note` is
`"missing_symbol"` (and whose per-source flags are all plain `False`). -/
theorem missing_symbol_row (found : ResolverId → Bool) (cmcKey fdiEnabled : Bool)
    (ds : List Char) (idx : Nat) (sym nam : List Char)
    (hsym : normStr sym = []) :
    processRow found cmcKey fdiEnabled ds idx sym nam =
      ([], some
        { source_dataset := ds, row_index := idx, symbol := sym, name := nam
          coingecko_found := .bool false, cmc_found := .bool false
          coinpaprika_found := .bool false, foundico_found := .bool false
          note := "missing_symbol".toList }) := by
  unfold processRow
  rw [if_pos hsym]

/-- Witness for `missing_symbol_row`: a row whose symbol is `"  - "`
(normalizing to the empty string) with all mocked resolvers answering
`found=true`: no resolver is invoked and the `missing_symbol` record is
emitted. -/
theorem missing_symbol_row_witness :
    processRow (fun _ => true) true true "d".toList 7 "  - ".toList
        "Bitcoin".toList =
      ([], some
        { source_dataset := "d".toList, row_index := 7, symbol := "  - ".toList
          name := "Bitcoin".toList
          coingecko_found := .bool false, cmc_found := .bool false
          coinpaprika_found := .bool false, foundico_found := .bool false
          note := "missing_symbol".toList }) :=
  missing_symbol_row (fun _ => true) true true "d".toList 7 "  - ".toList
    "Bitcoin".toList (by decide)

/-- Claim C3: every input row contributes exactly zero or one record to the
accumulation list: zero when the normalized symbol is non-empty and some
resolver reports `found=true`, and exactly one otherwise (in particular the
missing-symbol case contributes exactly one). -/
theorem row_contribution (found : ResolverId → Bool) (cmcKey fdiEnabled : Bool)
    (ds : List Char) (idx : Nat) (sym nam : List Char) :
    (processRow found cmcKey fdiEnabled ds idx sym nam).2.toList.length =
      if normStr sym ≠ [] ∧
          (found .cg || found .cmc || found .cpk || found .fdi) = true
      then 0 else 1 := by
  unfold processRow
  by_cases hs : normStr sym = []
  · simp [hs]
  · cases hcg : found .cg <;> cases hcmc : found .cmc <;>
      cases hcpk : found .cpk <;> cases hfdi : found .fdi <;>
      simp [hs, hcg, hcmc, hcpk, hfdi]

/-- Claim C6 counterexample: while the CMC key is absent (`cmcKey = false`),
a missing-symbol row still produces a record whose `cmc_found` is the plain
boolean `False`, not the `"skipped_no_key"` marker (and its
`foundico_found` is `False`, not `"skipped_no_keys"`). -/
theorem skipped_no_key_cex :
    ((processRow (fun _ => false) false false "zenodo_fahlenbrach".toList 0 []
        "Bitcoin".toList).2.map (fun r => r.cmc_found)) =
      some (.bool false) ∧
    FoundFlag.bool false ≠ .str "skipped_no_key".toList := by
  decide

/-- Claim C6 (amended): while the CMC key and the Foundico key pair are
absent, every `not_found_anywhere` record carries the distinct markers
`cmc_found = "skipped_no_key"` and `foundico_found = "skipped_no_keys"`;
`missing_symbol` records, however, always carry the plain boolean `False`
in both slots. -/
theorem skipped_markers (found : ResolverId → Bool) (ds : List Char) (idx : Nat)
    (sym nam : List Char) (hs : normStr sym ≠ [])
    (hnone : found .cg = false ∧ found .cmc = false ∧ found .cpk = false ∧
      found .fdi = false) :
    (processRow found false false ds idx sym nam).2 =
      some
        { source_dataset := ds, row_index := idx, symbol := sym, name := nam
          coingecko_found := .bool false
          cmc_found := .str "skipped_no_key".toList
          coinpaprika_found := .bool false
          foundico_found := .str "skipped_no_keys".toList
          note := "not_found_anywhere".toList } ∧
    ∀ sym', normStr sym' = [] →
      (processRow found false false ds idx sym' nam).2 =
        some
          { source_dataset := ds, row_index := idx, symbol := sym', name := nam
            coingecko_found := .bool false, cmc_found := .bool false
            coinpaprika_found := .bool false, foundico_found := .bool false
            note := "missing_symbol".toList } := by
  obtain ⟨h0, h1, h2, h3⟩ := hnone
  constructor
  · unfold processRow
    rw [if_neg hs, if_neg (by rw [h0]; exact Bool.false_ne_true),
      if_neg (by rw [h1]; exact Bool.false_ne_true),
      if_neg (by rw [h2]; exact Bool.false_ne_true),
      if_neg (by rw [h3]; exact Bool.false_ne_true)]
    rfl
  · intro sym' hsym'
    unfold processRow
    rw [if_pos hsym']

/-- Witness for `skipped_markers`: all resolvers mocked to `found=false`,
no CMC key and no Foundico keys, symbol `"ZZZFAKE123"`. -/
theorem skipped_markers_witness :
    (processRow (fun _ => false) false false "d".toList 3 "ZZZFAKE123".toList
        []).2 =
      some
        { source_dataset := "d".toList, row_index := 3
          symbol := "ZZZFAKE123".toList, name := []
          coingecko_found := .bool false
          cmc_found := .str "skipped_no_key".toList
          coinpaprika_found := .bool false
          foundico_found := .str "skipped_no_keys".toList
          note := "not_found_anywhere".toList } ∧
    ∀ sym', normStr sym' = [] →
      (processRow (fun _ => false) false false "d".toList 3 sym' []).2 =
        some
          { source_dataset := "d".toList, row_index := 3, symbol := sym'
            name := []
            coingecko_found := .bool false, cmc_found := .bool false
            coinpaprika_found := .bool false, foundico_found := .bool false
            note := "missing_symbol".toList } :=
  skipped_markers (fun _ => false) "d".toList 3 "ZZZFAKE123".toList []
    (by decide) ⟨rfl, rfl, rfl, rfl⟩

/-! ## Network oracles

A resolver's network activity is abstracted by an oracle mapping each
request to what the `requests` call produced: `exc` when the call raised
(connection error, timeout, ...), otherwise the HTTP status together with
the parsed JSON body, where `none` models a body on which `.json()`
raises. -/

/-- Outcome of one HTTP request as seen by the calling code. -/
inductive NetOutcome (α : Type)
  | exc
  | resp (status : Nat) (body : Option α)
deriving DecidableEq, Repr

/-- A request outcome on which the calling code cannot find anything: the
call raised an exception, the status is not 200, or the body is malformed
(`.json()` raises on it). -/
def NetOutcome.failed {α : Type} : NetOutcome α → Prop
  | .exc => True
  | .resp status body => status ≠ 200 ∨ body = none

/-- Python `max(l, key=f)` for a non-empty `l`: the first element attaining
the maximum key (later elements replace the best only when strictly
greater). -/
def pyMaxBy {α : Type} (f : α → ℚ) : List α → Option α
  | [] => none
  | x :: xs => some (xs.foldl (fun best c => if f best < f c then c else best) x)

/-! ## `CMCResolver` (find.py lines 173-253)

```python
class CMCResolver:
    def __init__(self, api_key):
        self.api_key = api_key
        self.cache_symbol = {}
        self.cache_name = {}

    def find(self, symbol, name):
        if not self.api_key:
            return {"found": False, ..., "method": "no_api_key"}
        sym = (symbol or "").strip(); nam = (name or "").strip()
        if sym:
            key = sym.upper()
            if key in self.cache_symbol: return self.cache_symbol[key]
            try:
                r = GET(map, symbol=key)
                if r.status_code == 200:
                    arr = r.json().get("data", []) or []
                    if arr:
                        out = {found: True, ..., "method": "symbol"}
                        self.cache_symbol[key] = out; return out
            except Exception: pass
        if nam:
            key = nam.lower()
            if key in self.cache_name: return self.cache_name[key]
            try:
                r = GET(map, listing_status=..., aux=...)
                if r.status_code == 200:
                    arr = r.json().get("data", []) or []
                    nam_std = normalize_text(nam)
                    if arr:
                        best = max(arr, key=similarity to nam_std)
                        if similar(...) >= 0.88:
                            out = {found: True, ..., "method": "name_fuzzy"}
                            self.cache_name[key] = out; return out
            except Exception: pass
        return {"found": False, ..., "method": "none"}
```
-/

/-- A CoinMarketCap `/map` entry (JSON object fields may be absent). -/
structure CmcEntry where
  id : Option Nat
  symbol : Option (List Char)
  name : Option (List Char)
deriving DecidableEq, Repr

/-- The dict returned by `CMCResolver.find`. -/
structure CmcRes where
  found : Bool
  cmc_id : Option Nat
  cmc_symbol : Option (List Char)
  cmc_name : Option (List Char)
  method : List Char
deriving DecidableEq, Repr

/-- The two remote requests `CMCResolver.find` can issue. -/
inductive CmcReq
  | mapSymbol (key : List Char)
  | mapListing
deriving DecidableEq, Repr

/-- The resolver's in-memory caches (`dict` assignment modelled by
prepending; lookups take the most recent binding). -/
structure CmcState where
  cache_symbol : List (List Char × CmcRes)
  cache_name : List (List Char × CmcRes)
deriving DecidableEq, Repr

/-- Dictionary lookup in a cache. -/
def lookupCache (cache : List (List Char × CmcRes)) (k : List Char) :
    Option CmcRes :=
  match cache.find? (fun p => decide (p.1 = k)) with
  | some p => some p.2
  | none => none

namespace CMCResolver

/-- Python truthiness of `self.api_key` (`None` and `""` are falsy). -/
def keyTruthy : Option (List Char) → Bool
  | none => false
  | some k => decide (k ≠ [])

/-- `{"found": False, ..., "method": "none"}`. -/
def notFoundRes : CmcRes := ⟨false, none, none, none, "none".toList⟩

/-- `{"found": False, ..., "method": "no_api_key"}`. -/
def noKeyRes : CmcRes := ⟨false, none, none, none, "no_api_key".toList⟩

/-- A successful symbol-map hit (`arr[0]`). -/
def foundSymbolRes (e : CmcEntry) : CmcRes :=
  ⟨true, e.id, e.symbol, e.name, "symbol".toList⟩

/-- A successful fuzzy name hit. -/
def foundNameRes (e : CmcEntry) : CmcRes :=
  ⟨true, e.id, e.symbol, e.name, "name_fuzzy".toList⟩

/-- The name-fallback phase (`find.py` lines 219-251): `reqs` carries the
requests already issued by the symbol phase.  Everything inside the `try`
(exceptions, malformed JSON) degrades to falling through. -/
def namePhase (net : CmcReq → NetOutcome (List CmcEntry)) (st : CmcState)
    (nam : List Char) (reqs : List CmcReq) : CmcRes × CmcState × List CmcReq :=
  if nam = [] then (notFoundRes, st, reqs)
  else
    match lookupCache st.cache_name (pyLower nam) with
    | some res => (res, st, reqs)
    | none =>
      match net .mapListing with
      | .exc => (notFoundRes, st, reqs ++ [.mapListing])
      | .resp status body =>
        if status = 200 then
          match body with
          | none => (notFoundRes, st, reqs ++ [.mapListing])
          | some arr =>
            match pyMaxBy
                (fun c => similar (normStr nam) (normalize_text c.name)) arr with
            | none => (notFoundRes, st, reqs ++ [.mapListing])
            | some best =>
              if 88 / 100 ≤ similar (normStr nam) (normalize_text best.name) then
                (foundNameRes best,
                  { st with cache_name :=
                      (pyLower nam, foundNameRes best) :: st.cache_name },
                  reqs ++ [.mapListing])
              else (notFoundRes, st, reqs ++ [.mapListing])
        else (notFoundRes, st, reqs ++ [.mapListing])

/-- `CMCResolver.find`: returns the result dict, the updated caches, and
the list of remote requests issued (in order). -/
def find (apiKey : Option (List Char)) (net : CmcReq → NetOutcome (List CmcEntry))
    (st : CmcState) (symbol name : List Char) :
    CmcRes × CmcState × List CmcReq :=
  if keyTruthy apiKey = false then (noKeyRes, st, [])
  else
    if pyStrip symbol ≠ [] then
      match lookupCache st.cache_symbol (pyUpper (pyStrip symbol)) with
      | some res => (res, st, [])
      | none =>
        match net (.mapSymbol (pyUpper (pyStrip symbol))) with
        | .exc =>
          namePhase net st (pyStrip name) [.mapSymbol (pyUpper (pyStrip symbol))]
        | .resp status body =>
          if status = 200 then
            match body with
            | none =>
              namePhase net st (pyStrip name)
                [.mapSymbol (pyUpper (pyStrip symbol))]
            | some arr =>
              match arr with
              | [] =>
                namePhase net st (pyStrip name)
                  [.mapSymbol (pyUpper (pyStrip symbol))]
              | best :: _ =>
                (foundSymbolRes best,
                  { st with cache_symbol :=
                      (pyUpper (pyStrip symbol), foundSymbolRes best) ::
                        st.cache_symbol },
                  [.mapSymbol (pyUpper (pyStrip symbol))])
          else
            namePhase net st (pyStrip name)
              [.mapSymbol (pyUpper (pyStrip symbol))]
    else namePhase net st (pyStrip name) []

end CMCResolver

/-- Claim C9: a `CMCResolver` constructed with no API key returns, for every
symbol and name, immediately with `found=false` and method `"no_api_key"`,
leaves the caches untouched, and issues zero network calls. -/
theorem cmc_no_api_key (net : CmcReq → NetOutcome (List CmcEntry))
    (st : CmcState) (symbol name : List Char) :
    CMCResolver.find none net st symbol name = (CMCResolver.noKeyRes, st, []) ∧
    CMCResolver.noKeyRes.found = false ∧
    CMCResolver.noKeyRes.method = "no_api_key".toList :=
  ⟨rfl, rfl, rfl⟩

theorem namePhase_props (net : CmcReq → NetOutcome (List CmcEntry)) (st : CmcState)
    (nam : List Char) (reqs : List CmcReq)
    (hinv : ∀ p ∈ st.cache_name, p.2.found = true) :
    ((CMCResolver.namePhase net st nam reqs).1.found = false →
      (CMCResolver.namePhase net st nam reqs).2.1 = st) ∧
    ((CMCResolver.namePhase net st nam reqs).2.1.cache_symbol =
      st.cache_symbol) ∧
    (∀ p ∈ (CMCResolver.namePhase net st nam reqs).2.1.cache_name,
      p.2.found = true) ∧
    (∀ r ∈ reqs, r ∈ (CMCResolver.namePhase net st nam reqs).2.2) := by
  unfold CMCResolver.namePhase
  repeat' split
  all_goals
    first
      | exact ⟨fun _ => rfl, rfl, hinv, fun r hr => hr⟩
      | exact ⟨fun _ => rfl, rfl, hinv, fun r hr => List.mem_append_left _ hr⟩
      | refine ⟨fun hfalse => absurd hfalse (by simp [CMCResolver.foundNameRes]),
          rfl, ?_, fun r hr => List.mem_append_left _ hr⟩
  intro p hp
  rcases List.mem_cons.mp hp with h | h
  · rw [h]
    rfl
  · exact hinv p h

theorem mem_singleton_head {α : Type} (x : α) : x ∈ [x] :=
  List.mem_singleton.mpr rfl

/-- Claim C10: the CMC in-memory caches only ever hold `found=true` results:
a `find` returning `found=false` leaves the caches exactly as they were (so
nothing negative is ever stored), every cache entry keeps `found=true`, and
whenever the key is configured, the (stripped) symbol is non-empty and its
uppercased key is not cached, `find` issues the remote map-by-symbol lookup
rather than being served from cache. -/
theorem cmc_cache_only_found (apiKey : Option (List Char))
    (net : CmcReq → NetOutcome (List CmcEntry)) (st : CmcState)
    (symbol name : List Char)
    (hsym : ∀ p ∈ st.cache_symbol, p.2.found = true)
    (hnam : ∀ p ∈ st.cache_name, p.2.found = true) :
    ((CMCResolver.find apiKey net st symbol name).1.found = false →
      (CMCResolver.find apiKey net st symbol name).2.1 = st) ∧
    (∀ p ∈ (CMCResolver.find apiKey net st symbol name).2.1.cache_symbol,
      p.2.found = true) ∧
    (∀ p ∈ (CMCResolver.find apiKey net st symbol name).2.1.cache_name,
      p.2.found = true) ∧
    (CMCResolver.keyTruthy apiKey = true → pyStrip symbol ≠ [] →
      lookupCache st.cache_symbol (pyUpper (pyStrip symbol)) = none →
      CmcReq.mapSymbol (pyUpper (pyStrip symbol)) ∈
        (CMCResolver.find apiKey net st symbol name).2.2) := by
  have hnp0 := namePhase_props net st (pyStrip name) [] hnam
  have hnp1 := namePhase_props net st (pyStrip name)
    [.mapSymbol (pyUpper (pyStrip symbol))] hnam
  unfold CMCResolver.find
  split
  next hkey =>
    exact ⟨fun _ => rfl, hsym, hnam, fun ht => absurd hkey (by simp [ht])⟩
  next hkey =>
    split
    next hs =>
      split
      next res hres =>
        refine ⟨fun _ => rfl, hsym, hnam, ?_⟩
        intro _ _ hnone
        rw [hres] at hnone
        exact Option.noConfusion hnone
      next hres =>
        split
        next =>
          exact ⟨hnp1.1, fun p hp => hsym p (hnp1.2.1 ▸ hp), hnp1.2.2.1,
            fun _ _ _ => hnp1.2.2.2 _ (mem_singleton_head _)⟩
        next status body =>
          split
          next hstat =>
            split
            next =>
              exact ⟨hnp1.1, fun p hp => hsym p (hnp1.2.1 ▸ hp), hnp1.2.2.1,
                fun _ _ _ => hnp1.2.2.2 _ (mem_singleton_head _)⟩
            next arr =>
              split
              next =>
                exact ⟨hnp1.1, fun p hp => hsym p (hnp1.2.1 ▸ hp), hnp1.2.2.1,
                  fun _ _ _ => hnp1.2.2.2 _ (mem_singleton_head _)⟩
              next best rest =>
                refine ⟨fun hfalse =>
                    absurd hfalse (by simp [CMCResolver.foundSymbolRes]),
                  ?_, hnam, fun _ _ _ => mem_singleton_head _⟩
                intro p hp
                rcases List.mem_cons.mp hp with h | h
                · rw [h]
                  rfl
                · exact hsym p h
          next hstat =>
            exact ⟨hnp1.1, fun p hp => hsym p (hnp1.2.1 ▸ hp), hnp1.2.2.1,
              fun _ _ _ => hnp1.2.2.2 _ (mem_singleton_head _)⟩
    next hs =>
      exact ⟨hnp0.1, fun p hp => hsym p (hnp0.2.1 ▸ hp), hnp0.2.2.1,
        fun _ hs' _ => absurd hs' (by simpa using hs)⟩

/-- Witness for `cmc_cache_only_found`: key configured, empty caches, the
network raising on every request, symbol `"BTC"`. -/
theorem cmc_cache_only_found_witness :
    ((CMCResolver.find (some "K".toList) (fun _ => .exc) ⟨[], []⟩ "BTC".toList
        []).1.found = false →
      (CMCResolver.find (some "K".toList) (fun _ => .exc) ⟨[], []⟩ "BTC".toList
        []).2.1 = ⟨[], []⟩) ∧
    (∀ p ∈ (CMCResolver.find (some "K".toList) (fun _ => .exc) ⟨[], []⟩
        "BTC".toList []).2.1.cache_symbol, p.2.found = true) ∧
    (∀ p ∈ (CMCResolver.find (some "K".toList) (fun _ => .exc) ⟨[], []⟩
        "BTC".toList []).2.1.cache_name, p.2.found = true) ∧
    (CMCResolver.keyTruthy (some "K".toList) = true →
      pyStrip "BTC".toList ≠ [] →
      lookupCache ([] : List (List Char × CmcRes))
        (pyUpper (pyStrip "BTC".toList)) = none →
      CmcReq.mapSymbol (pyUpper (pyStrip "BTC".toList)) ∈
        (CMCResolver.find (some "K".toList) (fun _ => .exc) ⟨[], []⟩
          "BTC".toList []).2.2) :=
  cmc_cache_only_found (some "K".toList) (fun _ => .exc) ⟨[], []⟩ "BTC".toList
    [] (fun p hp => absurd hp (List.not_mem_nil p))
    (fun p hp => absurd hp (List.not_mem_nil p))

/-! ## `CoinGeckoResolver` (find.py lines 76-168)

`find` first ensures the catalog list is loaded (`_load_list`): that load is
NOT inside any `try`, so a raised request, a `raise_for_status()` on a
`>= 400` status, or a malformed body propagate out of `find`.  The lookup
itself (exact symbol index, exact name index, then the `/search` fallback
wrapped in `try/except`) cannot raise. -/

/-- A CoinGecko catalog / search entry (`{id, symbol, name}`). -/
structure CGEntry where
  id : Option (List Char)
  symbol : Option (List Char)
  name : Option (List Char)
deriving DecidableEq, Repr

/-- The dict returned by `CoinGeckoResolver.find`. -/
structure CGRes where
  found : Bool
  cg_id : Option (List Char)
  cg_symbol : Option (List Char)
  cg_name : Option (List Char)
  method : List Char
deriving DecidableEq, Repr

namespace CoinGeckoResolver

/-- `{"found": False, "cg_id": None, ..., "method": "none"}`. -/
def notFound : CGRes := ⟨false, none, none, none, "none".toList⟩

/-- A successful hit with the given `method`. -/
def mkRes (method : List Char) (e : CGEntry) : CGRes :=
  ⟨true, e.id, e.symbol, e.name, method⟩

/-- `_load_list` (lines 82-95): reuse the cached catalog, otherwise issue
the GET; `raise_for_status()` raises for statuses `>= 400` and `.json()`
raises on a malformed body — both escape `find` uncaught. -/
def loadList (st : Option (List CGEntry)) (net : NetOutcome (List CGEntry)) :
    Except Unit (List CGEntry) :=
  match st with
  | some cat => .ok cat
  | none =>
    match net with
    | .exc => .error ()
    | .resp status body =>
      if 400 ≤ status then .error ()
      else
        match body with
        | none => .error ()
        | some cat => .ok cat

/-- The `_by_symbol` index bucket for a normalized key: catalog entries (in
catalog order, as `setdefault(...).append` preserves it) whose normalized
symbol equals the key; only non-empty keys are indexed. -/
def bySymbol (cat : List CGEntry) (key : List Char) : List CGEntry :=
  if key = [] then []
  else cat.filter (fun c => decide (normalize_text c.symbol = key))

/-- The `_by_name` index bucket. -/
def byName (cat : List CGEntry) (key : List Char) : List CGEntry :=
  if key = [] then []
  else cat.filter (fun c => decide (normalize_text c.name = key))

/-- Step 1's disambiguation: max name-similarity when a query name is
present, else the first candidate. -/
def pickBest (cand : List CGEntry) (nam_std : List Char) : Option CGEntry :=
  if nam_std ≠ [] then
    pyMaxBy (fun c => similar nam_std (normalize_text c.name)) cand
  else cand.head?

/-- The body of `find` (lines 97-168) once the catalog is available: exact
symbol-index hit, exact name-index hit, then the remote `/search` fallback
whose failures are all swallowed by `try/except`. -/
def findLoaded (cat : List CGEntry) (searchNet : NetOutcome (List CGEntry))
    (symbol name : List Char) : CGRes :=
  if normStr symbol ≠ [] ∧ bySymbol cat (normStr symbol) ≠ [] then
    match pickBest (bySymbol cat (normStr symbol)) (normStr name) with
    | some best => mkRes "symbol".toList best
    | none => notFound   -- unreachable: the bucket is non-empty here
  else if normStr name ≠ [] ∧ byName cat (normStr name) ≠ [] then
    match (byName cat (normStr name)).head? with
    | some best => mkRes "name".toList best
    | none => notFound   -- unreachable: the bucket is non-empty here
  else if symbol ≠ [] ∨ name ≠ [] then
    match searchNet with
    | .exc => notFound
    | .resp status body =>
      if status = 200 then
        match body with
        | none => notFound   -- r.json() raised inside the try: swallowed
        | some coins =>
          match (if name ≠ [] then
              pyMaxBy (fun c => similar (normStr name) (normalize_text c.name))
                coins
            else
              pyMaxBy
                (fun c => similar (normStr symbol) (normalize_text c.symbol))
                coins) with
          | some best => mkRes "search".toList best
          | none => notFound   -- coins was empty
      else notFound
  else notFound

/-- `CoinGeckoResolver.find`: catalog load (fallible), then the infallible
lookup; returns the result together with the loaded catalog (the updated
`_coins_list` state). -/
def find (st : Option (List CGEntry)) (loadNet : NetOutcome (List CGEntry))
    (searchNet : NetOutcome (List CGEntry)) (symbol name : List Char) :
    Except Unit (CGRes × List CGEntry) :=
  match loadList st loadNet with
  | .error e => .error e
  | .ok cat => .ok (findLoaded cat searchNet symbol name, cat)

end CoinGeckoResolver

/-! ## `CoinPaprikaResolver` (checkpoint lines 236-290)

Both phases (symbol search over currencies, then name search over
currencies + ICOs with a `0.80` fuzzy threshold) are wrapped in
`try/except`, so every network failure degrades to falling through. -/

/-- A CoinPaprika search entry. -/
structure CpkEntry where
  id : Option (List Char)
  symbol : Option (List Char)
  name : Option (List Char)
deriving DecidableEq, Repr

/-- The dict returned by `CoinPaprikaResolver.find` (the bare
`{"found": False}` return carries no method key, hence the `Option`). -/
structure CpkRes where
  found : Bool
  cpk_id : Option (List Char)
  cpk_symbol : Option (List Char)
  cpk_name : Option (List Char)
  method : Option (List Char)
deriving DecidableEq, Repr

/-- The two remote searches `CoinPaprikaResolver.find` can issue. -/
inductive CpkReq
  | symbolSearch (q : List Char)
  | nameSearch (q : List Char)
deriving DecidableEq, Repr

namespace CoinPaprikaResolver

/-- `{"found": False}`. -/
def notFound : CpkRes := ⟨false, none, none, none, none⟩

/-- A successful hit with the given method. -/
def mkRes (method : List Char) (e : CpkEntry) : CpkRes :=
  ⟨true, e.id, e.symbol, e.name, some method⟩

/-- The name-search phase (lines 269-288); a response body is the pair
(currencies, icos). -/
def namePhase (net : CpkReq → NetOutcome (List CpkEntry × List CpkEntry))
    (nam : List Char) : CpkRes :=
  if nam = [] then notFound
  else
    match net (.nameSearch nam) with
    | .exc => notFound
    | .resp status body =>
      if status = 200 then
        match body with
        | none => notFound
        | some (cur, icos) =>
          match pyMaxBy
              (fun x => similar (normStr nam) (normalize_text x.name))
              (cur ++ icos) with
          | none => notFound   -- no candidates
          | some best =>
            if 80 / 100 ≤ similar (normStr nam) (normalize_text best.name) then
              mkRes "name_fuzzy".toList best
            else notFound
      else notFound

/-- `CoinPaprikaResolver.find` (lines 243-290). -/
def find (net : CpkReq → NetOutcome (List CpkEntry × List CpkEntry))
    (symbol name : List Char) : CpkRes :=
  if pyStrip symbol ≠ [] then
    match net (.symbolSearch (pyStrip symbol)) with
    | .exc => namePhase net (pyStrip name)
    | .resp status body =>
      if status = 200 then
        match body with
        | none => namePhase net (pyStrip name)
        | some (cur, _) =>
          if hcur : cur ≠ [] then
            match (cur.filter (fun x =>
                decide (normalize_text x.symbol = normStr (pyStrip symbol)))).head? with
            | some best => mkRes "symbol_search".toList best
            | none => mkRes "symbol_search".toList (cur.head hcur)
          else namePhase net (pyStrip name)
      else namePhase net (pyStrip name)
  else namePhase net (pyStrip name)

end CoinPaprikaResolver

/-! ## `FoundicoResolver` (checkpoint lines 295-350) and `post_foundico`
(lines 107-116)

`post_foundico` serializes and HMAC-signs the payload and issues the POST;
neither the POST in `find`'s page loop nor the `r.json()` on its response
is inside a `try`, so an exception there escapes `find`.  A non-200 status,
by contrast, is handled: `find` returns
`{"found": False, "method": f"foundico_http_{status}"}`. -/

/-- One item of a Foundico `/icos/` page (`main.name`, `finance.ticker`,
`links.url` may each be absent). -/
structure FdItem where
  id : Option Nat
  main_name : Option (List Char)
  finance_ticker : Option (List Char)
  url : Option (List Char)
deriving DecidableEq, Repr

/-- The dict returned by `FoundicoResolver.find` (absent keys are `none`). -/
structure FdRes where
  found : Bool
  fd_id : Option Nat
  fd_name : Option (List Char)
  fd_symbol : Option (List Char)
  fd_url : Option (List Char)
  method : Option (List Char)
deriving DecidableEq, Repr

namespace FoundicoResolver

/-- Result of scanning one page: an immediate exact-ticker hit, or the
running best fuzzy-name candidate with its score. -/
inductive ScanOut
  | exact (r : FdRes)
  | cont (bestScore : ℚ) (bestName : Option FdRes)

/-- The per-page item scan (lines 326-344): an exact normalized-ticker
match returns immediately; otherwise the best strictly-improving fuzzy name
candidate is accumulated. -/
def scanItems (sym_std nam_std : List Char) :
    List FdItem → ℚ → Option FdRes → ScanOut
  | [], bs, bn => .cont bs bn
  | item :: rest, bs, bn =>
    if sym_std ≠ [] ∧
        normStr (pyStrip (item.finance_ticker.getD [])) = sym_std then
      .exact ⟨true, item.id, some (pyStrip (item.main_name.getD [])),
        some (pyStrip (item.finance_ticker.getD [])), item.url,
        some "symbol_exact".toList⟩
    else if nam_std ≠ [] then
      if bs < similar nam_std (normStr (pyStrip (item.main_name.getD []))) then
        scanItems sym_std nam_std rest
          (similar nam_std (normStr (pyStrip (item.main_name.getD []))))
          (some ⟨true, item.id, some (pyStrip (item.main_name.getD [])),
            some (pyStrip (item.finance_ticker.getD [])), item.url,
            some "name_fuzzy".toList⟩)
      else scanItems sym_std nam_std rest bs bn
    else scanItems sym_std nam_std rest bs bn

/-- The page loop (lines 314-348); `remaining` counts the pages left.  A
raised POST or a raising `r.json()` escapes as `.error ()`; a non-200
status and page exhaustion return "not found" results. -/
def findPages (net : Nat → NetOutcome (List FdItem)) (sym_std nam_std : List Char) :
    Nat → Nat → Except Unit FdRes
  | _, 0 => .ok ⟨false, none, none, none, none, none⟩
  | page, remaining + 1 =>
    match net page with
    | .exc => .error ()
    | .resp status body =>
      if status ≠ 200 then
        .ok ⟨false, none, none, none, none,
          some ("foundico_http_".toList ++ (toString status).toList)⟩
      else
        match body with
        | none => .error ()
        | some items =>
          if items = [] then .ok ⟨false, none, none, none, none, none⟩
          else
            match scanItems sym_std nam_std items 0 none with
            | .exact r => .ok r
            | .cont bs bn =>
              match bn with
              | some r =>
                if 88 / 100 ≤ bs then .ok r
                else findPages net sym_std nam_std (page + 1) remaining
              | none => findPages net sym_std nam_std (page + 1) remaining

/-- `FoundicoResolver.find` (lines 308-350): disabled without the key pair,
else pages from 1 up to `max_pages`. -/
def find (enabled : Bool) (maxPages : Nat)
    (net : Nat → NetOutcome (List FdItem)) (symbol name : List Char) :
    Except Unit FdRes :=
  if enabled = false then
    .ok ⟨false, none, none, none, none, some "foundico_disabled".toList⟩
  else findPages net (normStr symbol) (normStr name) 1 maxPages

end FoundicoResolver

theorem bySymbol_nil (key : List Char) : CoinGeckoResolver.bySymbol [] key = [] := by
  unfold CoinGeckoResolver.bySymbol
  split <;> rfl

theorem byName_nil (key : List Char) : CoinGeckoResolver.byName [] key = [] := by
  unfold CoinGeckoResolver.byName
  split <;> rfl

/-- Claim C4 counterexample: a network failure during Foundico's own lookup
DOES propagate out of `find` uncaught — both a raised POST and a `200`
response with a malformed (`.json()`-raising) body escape as an exception
rather than degrading to `found=false`; the keys are configured and no
other resolver is involved. -/
theorem foundico_raises_cex :
    FoundicoResolver.find true 15 (fun _ => .exc) "btc".toList
      "bitcoin".toList = .error () ∧
    FoundicoResolver.find true 15 (fun _ => .resp 200 none) "btc".toList
      "bitcoin".toList = .error () :=
  ⟨rfl, rfl⟩

/-- Any failing outcome of the CMC listing request makes the name phase
fall through to "not found" (the whole phase sits inside `try/except`). -/
theorem cmc_namePhase_failed (net : CmcReq → NetOutcome (List CmcEntry))
    (nam : List Char) (reqs : List CmcReq)
    (hfail : ∀ req, (net req).failed) :
    (CMCResolver.namePhase net ⟨[], []⟩ nam reqs).1.found = false := by
  unfold CMCResolver.namePhase
  split
  · rfl
  · split
    next res hres => exact Option.noConfusion hres
    next hres =>
      split
      next heq => rfl
      next status body heq =>
        have h' : status ≠ 200 ∨ body = none := by
          have h := hfail CmcReq.mapListing
          rw [heq] at h
          exact h
        rcases h' with hs | hb
        · rw [if_neg hs]
          rfl
        · subst hb
          by_cases hstat : status = 200
          · rw [if_pos hstat]
            rfl
          · rw [if_neg hstat]
            rfl

/-- Any failing oracle makes `CMCResolver.find` report `found=false`
(starting from empty caches): the whole lookup is inside `try/except`. -/
theorem cmc_find_failed (apiKey : Option (List Char))
    (net : CmcReq → NetOutcome (List CmcEntry)) (symbol name : List Char)
    (hfail : ∀ req, (net req).failed) :
    (CMCResolver.find apiKey net ⟨[], []⟩ symbol name).1.found = false := by
  unfold CMCResolver.find
  split
  · rfl
  · split
    · split
      next res hres => exact Option.noConfusion hres
      next hres =>
        split
        next heq => exact cmc_namePhase_failed net (pyStrip name) _ hfail
        next status body heq =>
          have h' : status ≠ 200 ∨ body = none := by
            have h := hfail (CmcReq.mapSymbol (pyUpper (pyStrip symbol)))
            rw [heq] at h
            exact h
          rcases h' with hs | hb
          · rw [if_neg hs]
            exact cmc_namePhase_failed net (pyStrip name) _ hfail
          · subst hb
            by_cases hstat : status = 200
            · rw [if_pos hstat]
              exact cmc_namePhase_failed net (pyStrip name) _ hfail
            · rw [if_neg hstat]
              exact cmc_namePhase_failed net (pyStrip name) _ hfail
    · exact cmc_namePhase_failed net (pyStrip name) [] hfail

/-- Any failing outcome of the CoinPaprika name search falls through to
`{"found": False}`. -/
theorem cpk_namePhase_failed
    (net : CpkReq → NetOutcome (List CpkEntry × List CpkEntry))
    (nam : List Char) (hfail : ∀ req, (net req).failed) :
    CoinPaprikaResolver.namePhase net nam = CoinPaprikaResolver.notFound := by
  unfold CoinPaprikaResolver.namePhase
  split
  · rfl
  · split
    next heq => rfl
    next status body heq =>
      have h' : status ≠ 200 ∨ body = none := by
        have h := hfail (CpkReq.nameSearch nam)
        rw [heq] at h
        exact h
      rcases h' with hs | hb
      · rw [if_neg hs]
      · subst hb
        by_cases hstat : status = 200
        · rw [if_pos hstat]
        · rw [if_neg hstat]

/-- Any failing oracle makes `CoinPaprikaResolver.find` return
`{"found": False}`: both phases are inside `try/except`. -/
theorem cpk_find_failed
    (net : CpkReq → NetOutcome (List CpkEntry × List CpkEntry))
    (symbol name : List Char) (hfail : ∀ req, (net req).failed) :
    CoinPaprikaResolver.find net symbol name = CoinPaprikaResolver.notFound := by
  unfold CoinPaprikaResolver.find
  split
  · split
    next heq => exact cpk_namePhase_failed net (pyStrip name) hfail
    next status body heq =>
      have h' : status ≠ 200 ∨ body = none := by
        have h := hfail (CpkReq.symbolSearch (pyStrip symbol))
        rw [heq] at h
        exact h
      rcases h' with hs | hb
      · rw [if_neg hs]
        exact cpk_namePhase_failed net (pyStrip name) hfail
      · subst hb
        by_cases hstat : status = 200
        · rw [if_pos hstat]
          exact cpk_namePhase_failed net (pyStrip name) hfail
        · rw [if_neg hstat]
          exact cpk_namePhase_failed net (pyStrip name) hfail
  · exact cpk_namePhase_failed net (pyStrip name) hfail

/-- Any failing outcome of the CoinGecko `/search` fallback degrades to
"not found" (shown against the empty catalog, where the index steps cannot
hit): the fallback is inside `try/except`. -/
theorem cg_findLoaded_failed (searchNet : NetOutcome (List CGEntry))
    (symbol name : List Char) (hfail : searchNet.failed) :
    CoinGeckoResolver.findLoaded [] searchNet symbol name =
      CoinGeckoResolver.notFound := by
  unfold CoinGeckoResolver.findLoaded
  rw [if_neg (by simp [bySymbol_nil]), if_neg (by simp [byName_nil])]
  split
  · split
    next => rfl
    next status body =>
      have h' : status ≠ 200 ∨ body = none := hfail
      rcases h' with hs | hb
      · rw [if_neg hs]
      · subst hb
        by_cases hstat : status = 200
        · rw [if_pos hstat]
        · rw [if_neg hstat]
  · rfl

/-- Claim C4 (amended): every network failure mode — a raised exception, a
non-200 status, or a malformed (`.json()`-raising) body — during a
resolver's own lookup is caught and degraded to that resolver's "not found"
for CoinGecko (once its catalog is loaded; the mandatory catalog load
itself is fatal by design), CoinMarketCap and CoinPaprika, and Foundico
handles a non-200 page status as "not found" — but an exception or
malformed JSON during Foundico's page fetch propagates out of `find`
uncaught (see the counterexample). -/
theorem resolver_error_handling :
    (∀ (cat : List CGEntry) (loadNet searchNet : NetOutcome (List CGEntry))
        (symbol name : List Char),
      (CoinGeckoResolver.find (some cat) loadNet searchNet symbol name).isOk
        = true) ∧
    (∀ (searchNet : NetOutcome (List CGEntry)) (symbol name : List Char),
      searchNet.failed →
      CoinGeckoResolver.findLoaded [] searchNet symbol name =
        CoinGeckoResolver.notFound) ∧
    (∀ (apiKey : Option (List Char))
        (net : CmcReq → NetOutcome (List CmcEntry)) (symbol name : List Char),
      (∀ req, (net req).failed) →
      (CMCResolver.find apiKey net ⟨[], []⟩ symbol name).1.found = false) ∧
    (∀ (net : CpkReq → NetOutcome (List CpkEntry × List CpkEntry))
        (symbol name : List Char),
      (∀ req, (net req).failed) →
      CoinPaprikaResolver.find net symbol name =
        CoinPaprikaResolver.notFound) ∧
    (∀ (mp : Nat) (net : Nat → NetOutcome (List FdItem))
        (symbol name : List Char) (status : Nat) (body : Option (List FdItem)),
      net 1 = .resp status body → status ≠ 200 →
      FoundicoResolver.find true (mp + 1) net symbol name =
        .ok ⟨false, none, none, none, none,
          some ("foundico_http_".toList ++ (toString status).toList)⟩) := by
  refine ⟨?_, ?_, ?_, ?_, ?_⟩
  · intro cat loadNet searchNet symbol name
    rfl
  · exact cg_findLoaded_failed
  · exact cmc_find_failed
  · exact cpk_find_failed
  · intro mp net symbol name status body hnet hstat
    unfold FoundicoResolver.find
    rw [if_neg (by simp)]
    show FoundicoResolver.findPages net (normStr symbol) (normStr name) 1
      (mp + 1) = _
    unfold FoundicoResolver.findPages
    rw [hnet]
    simp only [if_pos hstat]

/-- Witness for `resolver_error_handling` at concrete failing inputs,
covering all three failure modes: a raised request (CoinPaprika), a non-200
status with malformed body (CMC), a malformed 200 body (CoinGecko search),
and a Foundico page oracle answering HTTP 500. -/
theorem resolver_error_handling_witness :
    (CoinGeckoResolver.find (some []) .exc .exc [] []).isOk = true ∧
    CoinGeckoResolver.findLoaded [] (.resp 200 none) "btc".toList [] =
      CoinGeckoResolver.notFound ∧
    (CMCResolver.find (some "K".toList) (fun _ => .resp 500 none) ⟨[], []⟩
        "BTC".toList "Bitcoin".toList).1.found = false ∧
    CoinPaprikaResolver.find (fun _ => .exc) "BTC".toList "Bitcoin".toList =
      CoinPaprikaResolver.notFound ∧
    FoundicoResolver.find true 15 (fun _ => .resp 500 (some []))
        "btc".toList [] =
      .ok ⟨false, none, none, none, none,
        some ("foundico_http_".toList ++ (toString 500).toList)⟩ :=
  ⟨resolver_error_handling.1 [] .exc .exc [] [],
    resolver_error_handling.2.1 (.resp 200 none) "btc".toList []
      (Or.inr rfl),
    resolver_error_handling.2.2.1 (some "K".toList) (fun _ => .resp 500 none)
      "BTC".toList "Bitcoin".toList (fun _ => Or.inl (by decide)),
    resolver_error_handling.2.2.2.1 (fun _ => .exc) "BTC".toList
      "Bitcoin".toList (fun _ => trivial),
    resolver_error_handling.2.2.2.2 14 (fun _ => .resp 500 (some []))
      "btc".toList [] 500 (some []) rfl (by decide)⟩

